import Mathlib

/-!
Verification development for the scania_SOPS repository.

The repository has two algorithmic cores:

* `Full_SOPS_Editor_v8_13_EN_Custom_Params_CSVready.py` — key normalization
  (`norm`, `letter_prefix`), the per-parameter meaning buckets built by
  `load_mapping_csv_any` (first-writer-wins `setdefault` insertion under three
  derived keys), the resolver `resolve_long_and_desc`, and the bulk patch
  preview/commit logic of `App._bulk_preview_and_apply` / `App.on_apply_code`.
* `classifier/compaer.py` — the delta comparison in `App.recompute`
  (presence counts, category assignment, similarity score) and the sorting in
  `App.sort_rows_in_place`.

Python strings are modelled as Lean `String`; their ASCII-level operations
(`str.strip`, `str.upper`, `str.lower`) are given explicit character-list
definitions mirroring Python's behaviour on the ASCII inputs the program
handles.  Python dicts are modelled either as total functions with an explicit
default (the mapping stores, whose absent entry behaves as `{}` via
`dict.get(fid, {})`) or as association lists where insertion order is
observable (the bulk patch mappings, iterated by `dict.items()`).
-/

namespace SOPS

/-! ### Python string primitives -/

/-- Whitespace characters removed by Python's `str.strip()` (ASCII range). -/
def pySpace (c : Char) : Bool :=
  c = ' ' || c = '\t' || c = '\n' || c = '\x0d' || c = '\x0b' || c = '\x0c'

/-- Python `str.strip()`: drop leading and trailing whitespace. -/
def pyStrip (s : String) : String :=
  String.mk (((s.data.dropWhile pySpace).reverse.dropWhile pySpace).reverse)

/-- Python `str.upper()` restricted to ASCII, as used on the program's codes. -/
def pyUpper (s : String) : String :=
  String.mk (s.data.map Char.toUpper)

/-- Python `str.lower()` restricted to ASCII. -/
def pyLower (s : String) : String :=
  String.mk (s.data.map Char.toLower)

/-! ### KeyNormalizer (editor lines 72-77) -/

/-- Embedding of `norm` (editor line 72): strip every character that is not an
ASCII letter or digit, then uppercase (`re.sub(r"[^A-Za-z0-9]+", "", code).upper()`). -/
def norm (code : String) : String :=
  String.mk ((code.data.filter Char.isAlphanum).map Char.toUpper)

/-- Embedding of `letter_prefix` (editor line 75): the longest leading run of
ASCII letters, uppercased (`re.match(r"[A-Za-z]+", code)`), empty when the
string does not start with a letter. -/
def letterPref (code : String) : String :=
  String.mk ((code.data.takeWhile Char.isAlpha).map Char.toUpper)

/-! ### MappingStore -/

/-- A per-parameter meaning bucket: Python dict `str → str`.  `b k = none`
models an absent key. -/
abbrev Bucket : Type := String → Option String

/-- The empty bucket (`{}`). -/
def emptyBucket : Bucket := fun _ => none

/-- Python `dict.setdefault(k, v)`: insert `k ↦ v` only when `k` is absent. -/
def Bucket.setdefault (b : Bucket) (k v : String) : Bucket :=
  match b k with
  | some _ => b
  | none => fun k' => if k' = k then some v else b k'

/-- `mapping_desc`: parameter id ↦ meaning bucket.  An id that was never
inserted has the empty bucket, matching `mapping_desc.get(fid, {})` and
`mapping_desc.setdefault(fid, {})`. -/
abbrev MappingDesc : Type := Nat → Bucket

/-- The empty `mapping_desc`. -/
def emptyMD : MappingDesc := fun _ => emptyBucket

/-- `mapping_long`: parameter id ↦ display name, absent modelled as `""`
(matching `mapping_long.get(fid, "")`; only non-empty names are ever stored). -/
abbrev MappingLong : Type := Nat → String

/-- The empty `mapping_long`. -/
def emptyML : MappingLong := fun _ => ""

/-- Embedding of the meaning-insertion block of `load_mapping_csv_any`
(editor lines 151-161).  `code` and `desc` are the already-stripped cell
values of lines 152-153; the guard is line 154's `if code and desc`.  The
bucket gains, via first-writer-wins `setdefault`, the uppercased code
(line 156-157), the normalized code (line 158) — note the source does NOT
guard this one against being empty — and, only when non-empty, the letter
prefix (lines 159-160). -/
def add_meaning (md : MappingDesc) (fid : Nat) (code desc : String) : MappingDesc :=
  if code = "" ∨ desc = "" then md
  else
    let b := md fid
    let b := b.setdefault (pyUpper code) desc
    let b := b.setdefault (norm code) desc
    let pref := letterPref code
    let b := if pref = "" then b else b.setdefault pref desc
    fun f => if f = fid then b else md f

/-- Embedding of the display-name insertion of `load_mapping_csv_any`
(editor lines 148-149): first non-empty value wins. -/
def add_long (ml : MappingLong) (fid : Nat) (name : String) : MappingLong :=
  if name = "" then ml
  else if ml fid = "" then fun f => if f = fid then name else ml f
  else ml

/-! ### RecordResolver (editor lines 341-350) -/

/-- The key-trying loop of `resolve_long_and_desc` (editor lines 346-349):
try each key in order, skip empty keys (`if not key: continue`), return the
first non-empty hit (`if desc: return`), else `""`. -/
def lookupKeys (bucket : Bucket) : List String → String
  | [] => ""
  | k :: ks =>
    if k = "" then lookupKeys bucket ks
    else
      match bucket k with
      | some d => if d = "" then lookupKeys bucket ks else d
      | none => lookupKeys bucket ks

/-- Embedding of `resolve_long_and_desc` (editor lines 341-350). -/
def resolve_long_and_desc (mapping_desc : MappingDesc) (mapping_long : MappingLong)
    (fid : Nat) (code_display : String) : String × String :=
  let long_generic := mapping_long fid
  let bucket := mapping_desc fid
  if code_display = "" then (long_generic, "")
  else
    let up := pyUpper (pyStrip code_display)
    (long_generic, lookupKeys bucket [up, norm code_display, letterPref code_display])

/-! ### PatchEngine (editor lines 808-881 and 1089-1121)

A snapshot row is the tuple `(id, long, code, desc, updated, flase)` of
`App.rows_all` (editor line 407), modelled as a structure with named fields. -/

/-- One entry of `App.rows_all`: `(fid, long, code, desc, updated, flase-marker)`. -/
structure SRow where
  fid : Nat
  long : String
  code : String
  desc : String
  upd : String
  mark : String
deriving DecidableEq

/-- One entry of the `preview_rows` list built at editor lines 824-836:
`(fid0, long_used, code_show, desc_show, str(target_code), desc_after)`. -/
structure PreviewRow where
  fid : Nat
  longUsed : String
  codeShow : String
  descShow : String
  tgt : String
  descAfter : String
deriving DecidableEq

/-- Helper for `idToIdx`: folds the rows with their position, later entries
overwriting earlier ones, exactly like the dict comprehension it embeds. -/
def idToIdxAux : List SRow → Nat → (Nat → Option Nat) → (Nat → Option Nat)
  | [], _, acc => acc
  | r :: rs, i, acc => idToIdxAux rs (i + 1) (fun k => if k = r.fid then some i else acc k)

/-- Embedding of `id_to_idx = {int(r[0]): i for i, r in enumerate(all_rows)}`
(editor line 816, likewise line 1102): parameter id ↦ index of the LAST row
carrying it (later dict assignments overwrite earlier ones). -/
def idToIdx (rows : List SRow) : Nat → Option Nat :=
  idToIdxAux rows 0 (fun _ => none)

/-- Embedding of one iteration of the preview-building loop of
`App._bulk_preview_and_apply` (editor lines 826-836) for the patch entry
`(fid, target_code)`: entries whose id is absent from `id_to_idx` yield no
row; otherwise the before/after texts are built from the current row and
`resolve_long_and_desc` at the target code. -/
def stageRowAt (md : MappingDesc) (ml : MappingLong) (rows : List SRow)
    (e : Nat × String) (i : Nat) : Option PreviewRow :=
  match rows[i]? with
  | none => none
  | some r =>
    let la := resolve_long_and_desc md ml r.fid e.2
    some { fid := r.fid
           longUsed := if r.long ≠ "" then r.long else la.1
           codeShow := if r.code ≠ e.2 then r.code ++ " → " ++ e.2 else r.code
           descShow :=
             if la.2 ≠ "" ∧ la.2 ≠ r.desc then r.desc ++ " → " ++ la.2
             else if r.desc ≠ "" then r.desc else la.2
           tgt := e.2
           descAfter := la.2 }

/-- The id-presence test of the loop: the body above runs only when
`id_to_idx.get(fid)` is not `None`. -/
def stageRow (md : MappingDesc) (ml : MappingLong) (rows : List SRow)
    (idxOf : Nat → Option Nat) (e : Nat × String) : Option PreviewRow :=
  match idxOf e.1 with
  | none => none
  | some i => stageRowAt md ml rows e i

/-- Embedding of the preview-building loop of `App._bulk_preview_and_apply`
(editor lines 824-836): one preview row per patch entry present in the
snapshot, in patch iteration order. -/
def stage (md : MappingDesc) (ml : MappingLong) (rows : List SRow)
    (mapping : List (Nat × String)) : List PreviewRow :=
  mapping.filterMap (stageRow md ml rows (idToIdx rows))

/-- The editor state `_apply_now` acts on: `rows_all`, `modified_codes`
(a dict, modelled as a function), and the local `changed` counter. -/
structure ApplyState where
  rows : List SRow
  modified : Nat → Option String
  changed : Nat

/-- Embedding of one iteration of `_apply_now` (editor lines 859-867): look
the preview row's id up in the closure's `id_to_idx`, skip when the current
code already equals the target case-insensitively, otherwise replace the
code, fall back to the old description when `desc_after` is empty
(`desc_after or desc`), set the flase-marker, record the id in
`modified_codes` and bump `changed`. -/
def applyStepAt (st : ApplyState) (pr : PreviewRow) (i : Nat) : ApplyState :=
  match st.rows[i]? with
  | none => st
  | some r =>
    if pyUpper r.code = pyUpper pr.tgt then st
    else
      { rows := st.rows.set i
          { r with code := pr.tgt
                   desc := if pr.descAfter ≠ "" then pr.descAfter else r.desc
                   mark := pr.tgt }
        modified := fun k => if k = pr.fid then some pr.tgt else st.modified k
        changed := st.changed + 1 }

/-- The id lookup heading each `_apply_now` iteration (`idx = id_to_idx.get(fid0)`,
editor lines 860-862): absent ids are skipped. -/
def applyStep (idxOf : Nat → Option Nat) (st : ApplyState) (pr : PreviewRow) : ApplyState :=
  match idxOf pr.fid with
  | none => st
  | some i => applyStepAt st pr i

/-- Embedding of `_apply_now` (editor lines 857-870): fold `applyStep` over
the preview rows.  `idxOf` is the `id_to_idx` captured by the closure, built
from the rows as they were when the preview was staged. -/
def apply_now (idxOf : Nat → Option Nat) (pv : List PreviewRow) (st : ApplyState) : ApplyState :=
  pv.foldl (applyStep idxOf) st

/-- Whether `_apply_now` will actually change the record of preview row `pr`,
judged against the rows as they were when the preview was staged: the id is
present and its current code differs from the target case-insensitively. -/
def willChangeAt (rows : List SRow) (pr : PreviewRow) (i : Nat) : Bool :=
  match rows[i]? with
  | none => false
  | some r => !(pyUpper r.code = pyUpper pr.tgt)

/-- See `willChangeAt`; absent ids never change anything. -/
def willChange (rows : List SRow) (idxOf : Nat → Option Nat) (pr : PreviewRow) : Bool :=
  match idxOf pr.fid with
  | none => false
  | some i => willChangeAt rows pr i

/-- Embedding of the single-row apply loop of `App.on_apply_code`
(editor lines 1102-1117): for each selected id, skip when the current code
already equals the new code case-insensitively, else re-resolve at the new
code, keep the old description/display-name when the resolved one is empty
(`desc_after or desc0`, `long0 or long_after`), replace the row and record
the modification. -/
def applyCodeStepAt (md : MappingDesc) (ml : MappingLong) (new_code : String)
    (st : ApplyState) (fid i : Nat) : ApplyState :=
  match st.rows[i]? with
  | none => st
  | some r =>
    if pyUpper r.code = pyUpper new_code then st
    else
      let la := resolve_long_and_desc md ml r.fid new_code
      { rows := st.rows.set i
          { r with long := if r.long ≠ "" then r.long else la.1
                   code := new_code
                   desc := if la.2 ≠ "" then la.2 else r.desc
                   mark := new_code }
        modified := fun k => if k = fid then some new_code else st.modified k
        changed := st.changed + 1 }

/-- The id lookup heading each `on_apply_code` iteration (editor lines
1108-1109): selected ids absent from `id_to_idx` are skipped. -/
def applyCodeStep (md : MappingDesc) (ml : MappingLong) (idxOf : Nat → Option Nat)
    (new_code : String) (st : ApplyState) (fid : Nat) : ApplyState :=
  match idxOf fid with
  | none => st
  | some i => applyCodeStepAt md ml new_code st fid i

def on_apply_code_loop (md : MappingDesc) (ml : MappingLong) (rows : List SRow)
    (modified : Nat → Option String) (sel : List Nat) (new_code : String) : ApplyState :=
  sel.foldl (applyCodeStep md ml (idToIdx rows) new_code)
    { rows := rows, modified := modified, changed := 0 }

/-! ### DeltaEngine (compaer lines 380-485)

`parse_fpc_map` returns a dict from FPC id (an XML attribute, kept as a
string throughout `compaer.py`) to code.  A cohort is the list of such
snapshots (`fpccodes_A.values()`, one per distinct file). -/

/-- One parsed snapshot: FPC id string ↦ code, `none` for absent ids. -/
abbrev Snapshot : Type := String → Option String

/-- Presence count of an id in a cohort: the number of snapshots containing
it, i.e. `len(groups_A[fid])` with `groups_A[fid]` the set of files whose map
holds `fid` (compaer lines 388-401, 421-423). -/
def countIn (cohort : List Snapshot) (fid : String) : Nat :=
  cohort.countP (fun s => (s fid).isSome)

/-- Embedding of the category chain of `App.recompute`
(compaer lines 427-436). -/
def categorize (cntA cntB : Nat) : String :=
  if cntA = 0 ∧ 0 < cntB then "Only B"
  else if cntB = 0 ∧ 0 < cntA then "Only A"
  else if cntA = cntB then "Both (same)"
  else if cntA < cntB then "Both (increased)"
  else "Both (decreased)"

/-- Embedding of `count_sim` (compaer line 444):
`min(cntA,cntB)/max(cntA,cntB)` when the max is positive, else `0.0`.
Python float arithmetic is modelled over `ℚ`. -/
def count_sim (cntA cntB : Nat) : ℚ :=
  if 0 < max cntA cntB then (min cntA cntB : ℚ) / (max cntA cntB : ℚ) else 0

/-- Embedding of `jacc` (compaer lines 441-443): `|A ∩ B| / |A ∪ B|` when the
union is non-empty, else `0.0`. -/
def jaccard (codesA codesB : Finset String) : ℚ :=
  if 0 < (codesA ∪ codesB).card
  then ((codesA ∩ codesB).card : ℚ) / ((codesA ∪ codesB).card : ℚ) else 0

/-- Embedding of `sim = 0.6 * count_sim + 0.4 * jacc` (compaer line 445). -/
def similarity (cntA cntB : Nat) (codesA codesB : Finset String) : ℚ :=
  0.6 * count_sim cntA cntB + 0.4 * jaccard codesA codesB

/-- The fields of a comparison row that `App.sort_rows_in_place` reads:
`Category`, `_similarity_val`, `_support_val` (= `cntA + cntB`) and the
`FPC_ID` string (compaer lines 448-468). -/
structure CmpRow where
  category : String
  sim : ℚ
  support : Nat
  fpc_id : String
deriving DecidableEq

/-- Embedding of `cat_order.get(category, 9)` (compaer line 484). -/
def catRank (c : String) : Nat :=
  if c = "Only B" then 0
  else if c = "Only A" then 1
  else if c = "Both (increased)" then 2
  else if c = "Both (decreased)" then 3
  else if c = "Both (same)" then 4
  else 9

/-- Python's `<=` on strings: lexicographic comparison by code point, on the
character lists. -/
def pyStrLeL : List Char → List Char → Bool
  | [], _ => true
  | _ :: _, [] => false
  | a :: as, b :: bs => a.toNat < b.toNat || (a.toNat = b.toNat && pyStrLeL as bs)

/-- Python's `<=` on strings. -/
def pyStrLe (a b : String) : Bool := pyStrLeL a.data b.data

/-- The sort key ordering of the similarity policy (compaer lines 478-482):
ascending `(-similarity, -support, FPC_ID)`, i.e. descending similarity, then
descending support, then ascending FPC_ID string. -/
def simLe (a b : CmpRow) : Bool :=
  decide (b.sim < a.sim) ||
    (decide (b.sim = a.sim) &&
      (decide (b.support < a.support) ||
        (decide (b.support = a.support) && pyStrLe a.fpc_id b.fpc_id)))

/-- The sort key ordering of the category policy (compaer lines 484-485):
ascending `(cat_order.get(category, 9), FPC_ID)`. -/
def catLe (a b : CmpRow) : Bool :=
  decide (catRank a.category < catRank b.category) ||
    (decide (catRank a.category = catRank b.category) && pyStrLe a.fpc_id b.fpc_id)

/-- Embedding of `App.sort_rows_in_place` (compaer lines 475-485): Python's
stable `list.sort(key=...)` is modelled by the stable `List.mergeSort` under
the corresponding key ordering. -/
def sort_rows_in_place (mode : String) (rows : List CmpRow) : List CmpRow :=
  if mode = "similarity" then rows.mergeSort simLe else rows.mergeSort catLe

/-! ### Action-mapping overrides (editor lines 422-431, 741-744, 808-824, 873-877)

The per-action bulk mappings (`_default_params`, `CUSTOM_PACKS`) and the CSV
overrides (`_csv_params`) are Python dicts.  `_bulk_preview_and_apply` layers
the override onto the mapping with `mapping.update(...)` — an in-place
mutation of the very dict object stored in `_default_params` /
`CUSTOM_PACKS`, which the action handlers pass without copying.  Dicts whose
iteration order matters are modelled as association lists with Python's
assignment semantics. -/

/-- A bulk patch mapping: `ParameterId → target code`, as an ordered
association list with unique keys (a Python dict's items). -/
abbrev PMap : Type := List (Nat × String)

/-- Dict lookup on a `PMap`. -/
def pmLookup (m : PMap) (k : Nat) : Option String :=
  (m.find? (fun e => e.1 == k)).map (·.2)

/-- Python `d[k] = v` on a dict: overwrite in place when the key exists
(keeping its position), else append. -/
def dictInsert (m : PMap) (k : Nat) (v : String) : PMap :=
  if m.any (fun e => e.1 == k) then m.map (fun e => if e.1 == k then (k, v) else e)
  else m ++ [(k, v)]

/-- Python `m.update(ovr)`: assign every entry of `ovr` into `m`. -/
def dictUpdate (m ovr : PMap) : PMap :=
  ovr.foldl (fun acc e => dictInsert acc e.1 e.2) m

/-- Lookup in a string-keyed association dict. -/
def lookupA (l : List (String × PMap)) (k : String) : Option PMap :=
  (l.find? (fun e => e.1 == k)).map (·.2)

/-- Python `d[k] = v` on a string-keyed dict whose key is already present:
replace the stored value. -/
def assocSet (l : List (String × PMap)) (k : String) (v : PMap) : List (String × PMap) :=
  l.map (fun e => if e.1 == k then (k, v) else e)

/-- Embedding of the override-layering prologue of `_bulk_preview_and_apply`
(editor lines 818-823): when `_csv_params` is non-empty, update the mapping
in place from the entry keyed by the lowercased stripped action title, else
from the wildcard `"*"` entry when that exists. -/
def layer_overrides (csv_params : List (String × PMap)) (mapping : PMap)
    (title : String) : PMap :=
  if csv_params.isEmpty then mapping
  else
    match lookupA csv_params (pyLower (pyStrip title)) with
    | some d => dictUpdate mapping d
    | none =>
      match lookupA csv_params "*" with
      | some d => dictUpdate mapping d
      | none => mapping

/-- Embedding of a stored-mapping action handler (`App._action_immo_fix`,
editor lines 741-744, and `App._run_custom_pack`, lines 873-877) composed
with the head of `_bulk_preview_and_apply` (lines 812-824): fetch the stored
mapping for `name`, bail out when it is missing/empty or no snapshot rows are
loaded, otherwise layer the CSV overrides onto it.  Because
`mapping.update(...)` mutates the dict object that `stored` holds, the
layered mapping is also the new stored value — modelled by writing it back.
Returns the new stored dict-of-mappings and the mapping the preview is built
from (`none` when the handler returned before reaching the preview). -/
def run_mapped_action_go (csv_params : List (String × PMap)) (rows : List SRow)
    (name : String) (m : PMap) (stored : List (String × PMap)) :
    List (String × PMap) × Option PMap :=
  if m.isEmpty then (stored, none)
  else if rows.isEmpty then (stored, none)
  else
    (assocSet stored name (layer_overrides csv_params m name),
     some (layer_overrides csv_params m name))

/-- See `run_mapped_action_go`; a name with no stored mapping runs nothing. -/
def run_mapped_action (stored : List (String × PMap)) (csv_params : List (String × PMap))
    (rows : List SRow) (name : String) : List (String × PMap) × Option PMap :=
  match lookupA stored name with
  | none => (stored, none)
  | some m => run_mapped_action_go csv_params rows name m stored

/-! ### Shared concrete fixtures and claim-side notions -/

/-- The MappingStore of Scenario 1: rows `(100, "Z", "Off")`, `(100, "A", "On")`. -/
def scenario1MD : MappingDesc :=
  add_meaning (add_meaning emptyMD 100 "Z" "Off") 100 "A" "On"

/-- The record update `_apply_now` performs on a changed row
(editor line 865): new code, description falling back to the old one when the
re-resolved one is empty, flase-marker set to the target. -/
def updRow (r : SRow) (pr : PreviewRow) : SRow :=
  { r with code := pr.tgt
           desc := if pr.descAfter ≠ "" then pr.descAfter else r.desc
           mark := pr.tgt }

/-- After `_apply_now`, the record a preview row points at (if any) carries the
target code up to case.  Stated over `getElem?` so out-of-range indices are
vacuous. -/
def rowOkP (rows : List SRow) (idxOf : Nat → Option Nat) (pr : PreviewRow) : Prop :=
  ∀ i, idxOf pr.fid = some i → ∀ r, rows[i]? = some r → pyUpper r.code = pyUpper pr.tgt

/-- Scenario 3's snapshot: a single row with id 100 and code `"A"`. -/
def scenario3Rows : List SRow := [⟨100, "", "A", "", "", ""⟩]

/-- Scenario 3's snapshot when id 100 already carries the target code `"Z"`. -/
def scenario3RowsZ : List SRow := [⟨100, "", "Z", "", "", ""⟩]

/-- Scenario 3's bulk patch `{100: "Z", 200: "Q"}`. -/
def scenario3Patch : List (Nat × String) := [(100, "Z"), (200, "Q")]

/-- An empty `modified_codes` dict. -/
def noMod : Nat → Option String := fun _ => none

/-- A snapshot whose id-100 record has an old meaning on file, against an
empty mapping library (so re-resolving any code yields `""`). -/
def unresolvedRows : List SRow := [⟨100, "", "A", "Old", "", ""⟩]

/-- The single-entry patch retargeting id 100 to `"Z"`. -/
def retargetPatch : List (Nat × String) := [(100, "Z")]

/-- Claim-side numeric reading of an FPC id string as a decimal numeral (the
spec's ParameterId is an integer). -/
def pidVal (s : String) : Nat :=
  s.data.foldl (fun n c => n * 10 + (c.toNat - ('0' : Char).toNat)) 0

/-- Claim-side ordering for the category sort policy as the claim states it:
category precedence rank, ties broken by ascending numeric ParameterId. -/
def catClaimOrd (a b : CmpRow) : Prop :=
  catRank a.category < catRank b.category ∨
    (catRank a.category = catRank b.category ∧ pidVal a.fpc_id ≤ pidVal b.fpc_id)

/-! ### Lemmas about buckets and the resolver -/

theorem setdefault_preserve {b : Bucket} {k' d : String} (k v : String)
    (h : b k' = some d) : b.setdefault k v k' = some d := by
  unfold Bucket.setdefault
  cases hb : b k with
  | some x => exact h
  | none =>
    by_cases hk : k' = k
    · subst hk; rw [hb] at h; exact Option.noConfusion h
    · show (if k' = k then some v else b k') = some d
      rw [if_neg hk]; exact h

theorem setdefault_get_self (b : Bucket) (k v : String) :
    b.setdefault k v k = some ((b k).getD v) := by
  unfold Bucket.setdefault
  cases hb : b k with
  | some x => exact hb
  | none =>
    show (if k = k then some v else b k) = some (Option.getD none v)
    rw [if_pos rfl]; rfl

theorem setdefault_other {k' k : String} (b : Bucket) (v : String) (h : k' ≠ k) :
    b.setdefault k v k' = b k' := by
  unfold Bucket.setdefault
  cases hb : b k with
  | some x => rfl
  | none =>
    show (if k' = k then some v else b k') = b k'
    rw [if_neg h]

theorem add_meaning_apply_other {f fid : Nat} (md : MappingDesc) (code desc : String)
    (hf : f ≠ fid) : add_meaning md fid code desc f = md f := by
  by_cases hg : code = "" ∨ desc = "" <;> simp [add_meaning, hg, hf]

theorem add_meaning_apply_self_pref_empty {code desc : String} (md : MappingDesc) (fid : Nat)
    (hc : code ≠ "") (hd : desc ≠ "") (hp : letterPref code = "") :
    add_meaning md fid code desc fid
      = ((md fid).setdefault (pyUpper code) desc).setdefault (norm code) desc := by
  simp [add_meaning, hc, hd, hp]

theorem add_meaning_apply_self_pref_ne {code desc : String} (md : MappingDesc) (fid : Nat)
    (hc : code ≠ "") (hd : desc ≠ "") (hp : letterPref code ≠ "") :
    add_meaning md fid code desc fid
      = (((md fid).setdefault (pyUpper code) desc).setdefault
          (norm code) desc).setdefault (letterPref code) desc := by
  simp [add_meaning, hc, hd, hp]

theorem add_meaning_preserve {md : MappingDesc} {fid' : Nat} {k d : String}
    (fid : Nat) (code desc : String) (h : md fid' k = some d) :
    add_meaning md fid code desc fid' k = some d := by
  by_cases hg : code = "" ∨ desc = ""
  · simp [add_meaning, hg, h]
  · push_neg at hg
    by_cases hf : fid' = fid
    · subst hf
      by_cases hp : letterPref code = ""
      · rw [add_meaning_apply_self_pref_empty md fid' hg.1 hg.2 hp]
        exact setdefault_preserve _ _ (setdefault_preserve _ _ h)
      · rw [add_meaning_apply_self_pref_ne md fid' hg.1 hg.2 hp]
        exact setdefault_preserve _ _ (setdefault_preserve _ _ (setdefault_preserve _ _ h))
    · rw [add_meaning_apply_other md code desc hf]; exact h

theorem pyUpper_eq_empty_iff (s : String) : pyUpper s = "" ↔ s = "" := by
  constructor
  · intro h
    have hd : (pyUpper s).data = [] := by rw [h]
    simp only [pyUpper] at hd
    exact String.ext_iff.mpr (List.map_eq_nil_iff.mp hd)
  · intro h; subst h; rfl

theorem resolve_eq_lookupKeys (md : MappingDesc) (ml : MappingLong) (fid : Nat)
    {c : String} (hc : c ≠ "") :
    resolve_long_and_desc md ml fid c
      = (ml fid, lookupKeys (md fid) [pyUpper (pyStrip c), norm c, letterPref c]) := by
  simp [resolve_long_and_desc, hc]

theorem lookupKeys_cons_emptyKey (b : Bucket) (ks : List String) :
    lookupKeys b ("" :: ks) = lookupKeys b ks := by
  simp [lookupKeys]

theorem lookupKeys_cons_none {b : Bucket} {k : String} (hk : k ≠ "")
    (hb : b k = none) (ks : List String) : lookupKeys b (k :: ks) = lookupKeys b ks := by
  simp [lookupKeys, hk, hb]

theorem lookupKeys_cons_hit {b : Bucket} {k d : String} (hk : k ≠ "")
    (hb : b k = some d) (hd : d ≠ "") (ks : List String) : lookupKeys b (k :: ks) = d := by
  simp [lookupKeys, hk, hb, hd]

theorem lookupKeys_skip {b : Bucket} {k : String}
    (h : k = "" ∨ b k = none) (ks : List String) :
    lookupKeys b (k :: ks) = lookupKeys b ks := by
  rcases h with h | h
  · subst h; exact lookupKeys_cons_emptyKey b ks
  · by_cases hk : k = ""
    · subst hk; exact lookupKeys_cons_emptyKey b ks
    · exact lookupKeys_cons_none hk h ks

theorem lookupKeys_congr {b b' : Bucket} (hb : ∀ k, k ≠ "" → b k = b' k) :
    ∀ ks, lookupKeys b ks = lookupKeys b' ks := by
  intro ks
  induction ks with
  | nil => rfl
  | cons k ks ih =>
    by_cases hk : k = ""
    · subst hk; rw [lookupKeys_cons_emptyKey, lookupKeys_cons_emptyKey]; exact ih
    · show lookupKeys b (k :: ks) = lookupKeys b' (k :: ks)
      simp only [lookupKeys, if_neg hk, hb k hk]
      cases b' k with
      | none => exact ih
      | some d => by_cases hd : d = "" <;> simp [hd, ih]

/-! ### Claim C1 -/

/-- C1: for a non-empty raw code, `resolve_long_and_desc` tries the meaning
bucket with the uppercase-trimmed code, then `norm`, then `letterPref`,
skipping empty keys and returning the first non-empty hit (and `""` when no
key hits), so an exact uppercase-trim entry beats looser entries and exact
matching is case-insensitive: in Scenario 1 the store loaded from rows
`(100, "Z", "Off")`, `(100, "A", "On")` resolves `(100, "z")` to `("", "Off")`. -/
theorem c1_resolve_key_priority :
    (∀ (md : MappingDesc) (ml : MappingLong) (fid : Nat) (c m : String),
      c ≠ "" → pyUpper (pyStrip c) ≠ "" → md fid (pyUpper (pyStrip c)) = some m → m ≠ "" →
      resolve_long_and_desc md ml fid c = (ml fid, m))
    ∧ (∀ (md : MappingDesc) (ml : MappingLong) (fid : Nat) (c m : String),
      c ≠ "" → md fid (pyUpper (pyStrip c)) = none → norm c ≠ "" → md fid (norm c) = some m →
      m ≠ "" → resolve_long_and_desc md ml fid c = (ml fid, m))
    ∧ (∀ (md : MappingDesc) (ml : MappingLong) (fid : Nat) (c m : String),
      c ≠ "" → md fid (pyUpper (pyStrip c)) = none → md fid (norm c) = none →
      letterPref c ≠ "" → md fid (letterPref c) = some m → m ≠ "" →
      resolve_long_and_desc md ml fid c = (ml fid, m))
    ∧ (∀ (md : MappingDesc) (ml : MappingLong) (fid : Nat) (c : String),
      md fid (pyUpper (pyStrip c)) = none → md fid (norm c) = none →
      md fid (letterPref c) = none →
      (resolve_long_and_desc md ml fid c).2 = "")
    ∧ resolve_long_and_desc scenario1MD emptyML 100 "z" = ("", "Off") := by
  refine ⟨?_, ?_, ?_, ?_, by decide⟩
  · intro md ml fid c m hc hup hget hm
    rw [resolve_eq_lookupKeys md ml fid hc, lookupKeys_cons_hit hup hget hm]
  · intro md ml fid c m hc hup hn hget hm
    rw [resolve_eq_lookupKeys md ml fid hc, lookupKeys_skip (by by_cases h : pyUpper (pyStrip c) = "" <;> simp [h, hup]),
      lookupKeys_cons_hit hn hget hm]
  · intro md ml fid c m hc hup hn hp hget hm
    rw [resolve_eq_lookupKeys md ml fid hc,
      lookupKeys_skip (by by_cases h : pyUpper (pyStrip c) = "" <;> simp [h, hup]),
      lookupKeys_skip (by by_cases h : norm c = "" <;> simp [h, hn]),
      lookupKeys_cons_hit hp hget hm]
  · intro md ml fid c hup hn hp
    by_cases hc : c = ""
    · simp [resolve_long_and_desc, hc]
    · rw [resolve_eq_lookupKeys md ml fid hc,
        lookupKeys_skip (by by_cases h : pyUpper (pyStrip c) = "" <;> simp [h, hup]),
        lookupKeys_skip (by by_cases h : norm c = "" <;> simp [h, hn]),
        lookupKeys_skip (by by_cases h : letterPref c = "" <;> simp [h, hp])]
      rfl

/-- Witness for C1: the exact-key conjunct applied to the Scenario 1 store at
lowercase code `"z"`. -/
theorem c1_resolve_key_priority_witness :
    resolve_long_and_desc scenario1MD emptyML 100 "z" = (emptyML 100, "Off") :=
  c1_resolve_key_priority.1 scenario1MD emptyML 100 "z" "Off"
    (by decide) (by decide) (by decide) (by decide)

/-! ### Claim C2 -/

/-- C2: the meaning buckets are first-writer-wins.  After
`addMeaning(p, c, m1)` then `addMeaning(p, c, m2)` into a fresh store,
`resolve(p, c)` returns `m1`; all three derived keys (uppercase code,
normalized code, letter prefix) independently hold `m1` afterwards; and
insertion never overwrites any existing `(id, key)` entry of any store. -/
theorem c2_first_writer_wins :
    (∀ (p : Nat) (c m1 m2 : String) (ml : MappingLong),
      pyStrip c = c → c ≠ "" → m1 ≠ "" → m1 ≠ m2 →
      resolve_long_and_desc (add_meaning (add_meaning emptyMD p c m1) p c m2) ml p c
        = (ml p, m1))
    ∧ (∀ (p : Nat) (c m1 m2 : String), c ≠ "" → m1 ≠ "" →
      (add_meaning (add_meaning emptyMD p c m1) p c m2) p (pyUpper c) = some m1
      ∧ (add_meaning (add_meaning emptyMD p c m1) p c m2) p (norm c) = some m1
      ∧ (letterPref c ≠ "" →
          (add_meaning (add_meaning emptyMD p c m1) p c m2) p (letterPref c) = some m1))
    ∧ (∀ (md : MappingDesc) (fid fid' : Nat) (code desc k d : String),
      md fid' k = some d → add_meaning md fid code desc fid' k = some d) := by
  have key_facts : ∀ (p : Nat) (c m1 : String), c ≠ "" → m1 ≠ "" →
      (add_meaning emptyMD p c m1) p (pyUpper c) = some m1
      ∧ (add_meaning emptyMD p c m1) p (norm c) = some m1
      ∧ (letterPref c ≠ "" → (add_meaning emptyMD p c m1) p (letterPref c) = some m1) := by
    intro p c m1 hc hm1
    have hempty : emptyMD p = emptyBucket := rfl
    have h1 : (emptyBucket.setdefault (pyUpper c) m1) (pyUpper c) = some m1 := by
      rw [setdefault_get_self]; rfl
    have h2 : ((emptyBucket.setdefault (pyUpper c) m1).setdefault (norm c) m1) (norm c)
        = some m1 := by
      rw [setdefault_get_self]
      by_cases he : norm c = pyUpper c
      · rw [he, h1]; rfl
      · rw [setdefault_other _ _ he]; rfl
    have h2' : ((emptyBucket.setdefault (pyUpper c) m1).setdefault (norm c) m1) (pyUpper c)
        = some m1 := setdefault_preserve _ _ h1
    by_cases hp : letterPref c = ""
    · rw [add_meaning_apply_self_pref_empty emptyMD p hc hm1 hp, hempty]
      exact ⟨h2', h2, fun hp' => absurd hp hp'⟩
    · rw [add_meaning_apply_self_pref_ne emptyMD p hc hm1 hp, hempty]
      refine ⟨setdefault_preserve _ _ h2', setdefault_preserve _ _ h2, fun _ => ?_⟩
      rw [setdefault_get_self]
      by_cases he2 : letterPref c = norm c
      · rw [he2, h2]; rfl
      · rw [setdefault_other _ _ he2]
        by_cases he1 : letterPref c = pyUpper c
        · rw [he1, h1]; rfl
        · rw [setdefault_other _ _ he1]; rfl
  have preserve : ∀ (md : MappingDesc) (fid fid' : Nat) (code desc k d : String),
      md fid' k = some d → add_meaning md fid code desc fid' k = some d :=
    fun _ fid _ code desc _ _ h => add_meaning_preserve fid code desc h
  have two_adds : ∀ (p : Nat) (c m1 m2 : String), c ≠ "" → m1 ≠ "" →
      (add_meaning (add_meaning emptyMD p c m1) p c m2) p (pyUpper c) = some m1
      ∧ (add_meaning (add_meaning emptyMD p c m1) p c m2) p (norm c) = some m1
      ∧ (letterPref c ≠ "" →
          (add_meaning (add_meaning emptyMD p c m1) p c m2) p (letterPref c) = some m1) := by
    intro p c m1 m2 hc hm1
    obtain ⟨h1, h2, h3⟩ := key_facts p c m1 hc hm1
    exact ⟨preserve _ _ _ _ _ _ _ h1, preserve _ _ _ _ _ _ _ h2,
      fun hp => preserve _ _ _ _ _ _ _ (h3 hp)⟩
  refine ⟨?_, two_adds, preserve⟩
  intro p c m1 m2 ml hstrip hc hm1 _
  have hup : pyUpper (pyStrip c) ≠ "" := by
    rw [hstrip]
    exact fun h => hc ((pyUpper_eq_empty_iff c).mp h)
  have hget : (add_meaning (add_meaning emptyMD p c m1) p c m2) p (pyUpper (pyStrip c))
      = some m1 := by
    rw [hstrip]; exact (two_adds p c m1 m2 hc hm1).1
  exact c1_resolve_key_priority.1 _ ml p c m1 hc hup hget hm1

/-- Witness for C2: inserting `("Z", "Off")` then `("Z", "On")` at id 100 and
resolving code `"Z"` yields `"Off"`. -/
theorem c2_first_writer_wins_witness :
    resolve_long_and_desc (add_meaning (add_meaning emptyMD 100 "Z" "Off") 100 "Z" "On")
      emptyML 100 "Z" = (emptyML 100, "Off") :=
  c2_first_writer_wins.1 100 "Z" "Off" "On" emptyML
    (by decide) (by decide) (by decide) (by decide)

/-! ### Claim C8 -/

/-- C8 counterexample: `addMeaning` DOES insert an entry under the empty
string key.  For the punctuation-only code `"--"`, `norm "--" = ""` and the
unguarded `b.setdefault(norm(code), desc)` of editor line 158 stores the
meaning under the empty key, so the resulting bucket does contain that key —
contradicting the claim that no MeaningBucket ever holds the empty key. -/
theorem c8_empty_key_counterexample :
    (add_meaning emptyMD 1 "--" "X") 1 "" = some "X" := by decide

/-- C8 (amended): resolution never consults the empty key — two stores whose
buckets agree on all non-empty keys resolve identically — and the only way an
empty key is ever inserted is through an empty normalized code (the letter
prefix insertion is guarded, the uppercase key of a non-empty code is
non-empty); concretely, the empty-key entry created by `addMeaning(1, "--", "X")`
is unreachable: resolving the unrelated code `"B"` still yields no meaning. -/
theorem c8_empty_keys_amended :
    (∀ (md md' : MappingDesc) (ml : MappingLong) (fid : Nat) (c : String),
      (∀ k, k ≠ "" → md fid k = md' fid k) →
      resolve_long_and_desc md ml fid c = resolve_long_and_desc md' ml fid c)
    ∧ (∀ (md : MappingDesc) (fid fid' : Nat) (code desc : String), norm code ≠ "" →
      add_meaning md fid code desc fid' "" = md fid' "")
    ∧ resolve_long_and_desc (add_meaning emptyMD 1 "--" "X") emptyML 1 "B" = ("", "") := by
  refine ⟨?_, ?_, by decide⟩
  · intro md md' ml fid c hagree
    by_cases hc : c = ""
    · simp [resolve_long_and_desc, hc]
    · rw [resolve_eq_lookupKeys md ml fid hc, resolve_eq_lookupKeys md' ml fid hc,
        lookupKeys_congr hagree]
  · intro md fid fid' code desc hn
    by_cases hg : code = "" ∨ desc = ""
    · simp [add_meaning, hg]
    · push_neg at hg
      by_cases hf : fid' = fid
      · subst hf
        have hup : pyUpper code ≠ "" :=
          fun h => hg.1 ((pyUpper_eq_empty_iff code).mp h)
        have step2 : (((md fid').setdefault (pyUpper code) desc).setdefault
            (norm code) desc) "" = md fid' "" := by
          rw [setdefault_other _ _ (fun h => hn h.symm),
            setdefault_other _ _ (fun h => hup h.symm)]
        by_cases hp : letterPref code = ""
        · rw [add_meaning_apply_self_pref_empty md fid' hg.1 hg.2 hp]; exact step2
        · rw [add_meaning_apply_self_pref_ne md fid' hg.1 hg.2 hp,
            setdefault_other _ _ (fun h => hp h.symm)]
          exact step2
      · rw [add_meaning_apply_other md code desc hf]

/-- Witness for C8 (amended): inserting code `"A1"` (whose normalized key is
non-empty) never creates an empty-key entry. -/
theorem c8_empty_keys_amended_witness :
    add_meaning emptyMD 1 "A1" "X" 1 "" = emptyMD 1 "" :=
  c8_empty_keys_amended.2.1 emptyMD 1 1 "A1" "X" (by decide)

/-! ### Lemmas about id_to_idx, staging and committing -/

theorem idToIdxAux_spec : ∀ (rs : List SRow) (i : Nat) (acc : Nat → Option Nat) (f j : Nat),
    idToIdxAux rs i acc f = some j →
    acc f = some j ∨ ∃ k, ∃ hk : k < rs.length, j = i + k ∧ (rs.get ⟨k, hk⟩).fid = f := by
  intro rs
  induction rs with
  | nil => intro i acc f j h; exact Or.inl h
  | cons r rs ih =>
    intro i acc f j h
    rcases ih (i + 1) _ f j h with hacc | ⟨k, hk, hj, hfid⟩
    · have hacc' : (if f = r.fid then some i else acc f) = some j := hacc
      by_cases hf : f = r.fid
      · rw [if_pos hf] at hacc'
        right
        refine ⟨0, by simp, by simpa using (Option.some.inj hacc').symm, ?_⟩
        show r.fid = f
        exact hf.symm
      · rw [if_neg hf] at hacc'
        exact Or.inl hacc'
    · right
      refine ⟨k + 1, by simpa using Nat.succ_lt_succ hk, by omega, ?_⟩
      show ((r :: rs).get ⟨k + 1, _⟩).fid = f
      exact hfid

theorem idToIdx_spec {rows : List SRow} {f j : Nat} (h : idToIdx rows f = some j) :
    ∃ hj : j < rows.length, (rows.get ⟨j, hj⟩).fid = f := by
  rcases idToIdxAux_spec rows 0 _ f j h with hacc | ⟨k, hk, hj, hfid⟩
  · exact Option.noConfusion hacc
  · obtain rfl : j = k := by omega
    exact ⟨hk, hfid⟩

theorem idToIdx_getElem? {rows : List SRow} {f j : Nat} (h : idToIdx rows f = some j) :
    ∃ r, rows[j]? = some r ∧ r.fid = f := by
  obtain ⟨hj, hfid⟩ := idToIdx_spec h
  refine ⟨rows.get ⟨j, hj⟩, ?_, hfid⟩
  rw [List.getElem?_eq_getElem hj]
  rfl

theorem idToIdx_fid {rows : List SRow} {f j : Nat} {r : SRow}
    (h : idToIdx rows f = some j) (hr : rows[j]? = some r) : r.fid = f := by
  obtain ⟨r', hr', hfid⟩ := idToIdx_getElem? h
  rw [hr] at hr'
  rw [Option.some.inj hr']
  exact hfid

theorem idToIdx_inj {rows : List SRow} {f f' j : Nat}
    (h : idToIdx rows f = some j) (h' : idToIdx rows f' = some j) : f = f' := by
  obtain ⟨hj, hfid⟩ := idToIdx_spec h
  obtain ⟨hj', hfid'⟩ := idToIdx_spec h'
  rw [← hfid, ← hfid']

/-! Small unfolding equations for the split step functions. -/

theorem stageRow_none {md : MappingDesc} {ml : MappingLong} {rows : List SRow}
    {idxOf : Nat → Option Nat} {e : Nat × String} (h : idxOf e.1 = none) :
    stageRow md ml rows idxOf e = none := by
  unfold stageRow; rw [h]

theorem stageRow_some {md : MappingDesc} {ml : MappingLong} {rows : List SRow}
    {idxOf : Nat → Option Nat} {e : Nat × String} {i : Nat} (h : idxOf e.1 = some i) :
    stageRow md ml rows idxOf e = stageRowAt md ml rows e i := by
  unfold stageRow; rw [h]

theorem stageRowAt_some {md : MappingDesc} {ml : MappingLong} {rows : List SRow}
    {e : Nat × String} {i : Nat} {r : SRow} (h : rows[i]? = some r) :
    stageRowAt md ml rows e i
      = some { fid := r.fid
               longUsed := if r.long ≠ "" then r.long
                           else (resolve_long_and_desc md ml r.fid e.2).1
               codeShow := if r.code ≠ e.2 then r.code ++ " → " ++ e.2 else r.code
               descShow :=
                 if (resolve_long_and_desc md ml r.fid e.2).2 ≠ ""
                     ∧ (resolve_long_and_desc md ml r.fid e.2).2 ≠ r.desc
                 then r.desc ++ " → " ++ (resolve_long_and_desc md ml r.fid e.2).2
                 else if r.desc ≠ "" then r.desc
                 else (resolve_long_and_desc md ml r.fid e.2).2
               tgt := e.2
               descAfter := (resolve_long_and_desc md ml r.fid e.2).2 } := by
  unfold stageRowAt; rw [h]

theorem applyStep_none {idxOf : Nat → Option Nat} {st : ApplyState} {pr : PreviewRow}
    (h : idxOf pr.fid = none) : applyStep idxOf st pr = st := by
  unfold applyStep; rw [h]

theorem applyStep_some {idxOf : Nat → Option Nat} {st : ApplyState} {pr : PreviewRow}
    {i : Nat} (h : idxOf pr.fid = some i) : applyStep idxOf st pr = applyStepAt st pr i := by
  unfold applyStep; rw [h]

theorem applyStepAt_oob {st : ApplyState} {pr : PreviewRow} {i : Nat}
    (h : st.rows[i]? = none) : applyStepAt st pr i = st := by
  unfold applyStepAt; rw [h]

theorem applyStepAt_noop {st : ApplyState} {pr : PreviewRow} {i : Nat} {r : SRow}
    (h : st.rows[i]? = some r) (heq : pyUpper r.code = pyUpper pr.tgt) :
    applyStepAt st pr i = st := by
  unfold applyStepAt
  rw [h]
  show (if pyUpper r.code = pyUpper pr.tgt then st else _) = st
  rw [if_pos heq]

theorem applyStepAt_fire {st : ApplyState} {pr : PreviewRow} {i : Nat} {r : SRow}
    (h : st.rows[i]? = some r) (hne : ¬ pyUpper r.code = pyUpper pr.tgt) :
    applyStepAt st pr i
      = { rows := st.rows.set i (updRow r pr)
          modified := fun k => if k = pr.fid then some pr.tgt else st.modified k
          changed := st.changed + 1 } := by
  unfold applyStepAt
  rw [h]
  show (if pyUpper r.code = pyUpper pr.tgt then _ else _) = _
  rw [if_neg hne]
  rfl

theorem willChange_none {rows : List SRow} {idxOf : Nat → Option Nat} {pr : PreviewRow}
    (h : idxOf pr.fid = none) : willChange rows idxOf pr = false := by
  unfold willChange; rw [h]

theorem willChange_some {rows : List SRow} {idxOf : Nat → Option Nat} {pr : PreviewRow}
    {i : Nat} (h : idxOf pr.fid = some i) :
    willChange rows idxOf pr = willChangeAt rows pr i := by
  unfold willChange; rw [h]

theorem willChangeAt_oob {rows : List SRow} {pr : PreviewRow} {i : Nat}
    (h : rows[i]? = none) : willChangeAt rows pr i = false := by
  unfold willChangeAt; rw [h]

theorem willChangeAt_some {rows : List SRow} {pr : PreviewRow} {i : Nat} {r : SRow}
    (h : rows[i]? = some r) :
    willChangeAt rows pr i = !(pyUpper r.code = pyUpper pr.tgt) := by
  unfold willChangeAt; rw [h]

/-! Staging lemmas. -/

theorem stage_mem_fid {md : MappingDesc} {ml : MappingLong} {rows : List SRow}
    {mapping : List (Nat × String)} {pr : PreviewRow}
    (h : pr ∈ stage md ml rows mapping) : (idToIdx rows pr.fid).isSome := by
  obtain ⟨e, _, he⟩ := List.mem_filterMap.mp h
  cases hidx : idToIdx rows e.1 with
  | none => rw [stageRow_none hidx] at he; exact Option.noConfusion he
  | some i =>
    obtain ⟨r, hrow, hfid⟩ := idToIdx_getElem? hidx
    rw [stageRow_some hidx, stageRowAt_some hrow] at he
    have hpr : pr.fid = r.fid := by rw [← Option.some.inj he]
    rw [hpr, hfid, hidx]
    rfl

theorem stage_fids_sublist (md : MappingDesc) (ml : MappingLong) (rows : List SRow)
    (mapping : List (Nat × String)) :
    ((stage md ml rows mapping).map (fun pr => pr.fid)).Sublist (mapping.map Prod.fst) := by
  induction mapping with
  | nil => simp [stage]
  | cons e es ih =>
    show ((List.filterMap _ (e :: es)).map _).Sublist _
    rw [List.filterMap_cons]
    cases hidx : idToIdx rows e.1 with
    | none =>
      rw [stageRow_none hidx]
      exact List.Sublist.cons _ ih
    | some i =>
      obtain ⟨r, hrow, hfid⟩ := idToIdx_getElem? hidx
      rw [stageRow_some hidx, stageRowAt_some hrow]
      simp only [List.map_cons]
      exact hfid ▸ List.Sublist.cons₂ _ ih

theorem stage_keys_nodup (md : MappingDesc) (ml : MappingLong) (rows : List SRow)
    {mapping : List (Nat × String)} (h : (mapping.map Prod.fst).Nodup) :
    ((stage md ml rows mapping).map (fun pr => idToIdx rows pr.fid)).Nodup := by
  have hfids : ((stage md ml rows mapping).map (fun pr => pr.fid)).Nodup :=
    (stage_fids_sublist md ml rows mapping).nodup h
  have h2 : (((stage md ml rows mapping).map (fun pr => pr.fid)).map (idToIdx rows)).Nodup := by
    apply List.Nodup.map_on ?_ hfids
    intro x hx y hy hxy
    obtain ⟨px, hpx, hpxe⟩ := List.mem_map.mp hx
    obtain ⟨py, hpy, hpye⟩ := List.mem_map.mp hy
    obtain ⟨ix, hix⟩ := Option.isSome_iff_exists.mp (hpxe ▸ stage_mem_fid hpx)
    obtain ⟨iy, hiy⟩ := Option.isSome_iff_exists.mp (hpye ▸ stage_mem_fid hpy)
    rw [hix, hiy] at hxy
    obtain rfl : ix = iy := Option.some.inj hxy
    exact idToIdx_inj hix hiy
  rw [List.map_map] at h2
  exact h2

/-! Commit lemmas. -/

theorem apply_now_nil (idxOf : Nat → Option Nat) (st : ApplyState) :
    apply_now idxOf [] st = st := rfl

theorem apply_now_cons (idxOf : Nat → Option Nat) (pr : PreviewRow) (pv : List PreviewRow)
    (st : ApplyState) :
    apply_now idxOf (pr :: pv) st = apply_now idxOf pv (applyStep idxOf st pr) := rfl

theorem applyStep_rows_other {idxOf : Nat → Option Nat} {st : ApplyState} {pr : PreviewRow}
    {j : Nat} (h : ∀ i, idxOf pr.fid = some i → j ≠ i) :
    (applyStep idxOf st pr).rows[j]? = st.rows[j]? := by
  cases hidx : idxOf pr.fid with
  | none => rw [applyStep_none hidx]
  | some i =>
    rw [applyStep_some hidx]
    cases hrow : st.rows[i]? with
    | none => rw [applyStepAt_oob hrow]
    | some r =>
      by_cases heq : pyUpper r.code = pyUpper pr.tgt
      · rw [applyStepAt_noop hrow heq]
      · rw [applyStepAt_fire hrow heq]
        exact List.getElem?_set_ne (fun hij => h i hidx hij.symm)

theorem applyStep_establishes (idxOf : Nat → Option Nat) (st : ApplyState) (pr : PreviewRow) :
    rowOkP (applyStep idxOf st pr).rows idxOf pr := by
  intro i hidx r' hrow
  rw [applyStep_some hidx] at hrow
  cases hrow0 : st.rows[i]? with
  | none =>
    rw [applyStepAt_oob hrow0, hrow0] at hrow
    exact Option.noConfusion hrow
  | some r =>
    by_cases heq : pyUpper r.code = pyUpper pr.tgt
    · rw [applyStepAt_noop hrow0 heq, hrow0] at hrow
      rw [Option.some.inj hrow.symm]
      exact heq
    · rw [applyStepAt_fire hrow0 heq] at hrow
      obtain ⟨hi, _⟩ := List.getElem?_eq_some.mp hrow0
      have hrow2 : (st.rows.set i (updRow r pr))[i]? = some r' := hrow
      rw [List.getElem?_set_self hi] at hrow2
      rw [Option.some.inj hrow2.symm]
      rfl

theorem applyStep_id_of_ok {idxOf : Nat → Option Nat} {st : ApplyState} {pr : PreviewRow}
    (h : rowOkP st.rows idxOf pr) : applyStep idxOf st pr = st := by
  cases hidx : idxOf pr.fid with
  | none => exact applyStep_none hidx
  | some i =>
    rw [applyStep_some hidx]
    cases hrow : st.rows[i]? with
    | none => exact applyStepAt_oob hrow
    | some r => exact applyStepAt_noop hrow (h i hidx r hrow)

theorem apply_now_preserves_rowOk {idxOf : Nat → Option Nat} {pv : List PreviewRow}
    {st : ApplyState} {pr : PreviewRow} (hok : rowOkP st.rows idxOf pr)
    (hne : ∀ q ∈ pv, idxOf q.fid ≠ idxOf pr.fid) :
    rowOkP (apply_now idxOf pv st).rows idxOf pr := by
  induction pv generalizing st with
  | nil => exact hok
  | cons q pv ih =>
    rw [apply_now_cons]
    apply ih
    · intro i hidx r hrow
      have hq : ∀ i', idxOf q.fid = some i' → i ≠ i' := by
        intro i' hq' hii
        exact hne q (List.mem_cons_self q pv) (by rw [hq', hidx, hii])
      rw [applyStep_rows_other hq] at hrow
      exact hok i hidx r hrow
    · intro q' hq'
      exact hne q' (List.mem_cons_of_mem _ hq')

theorem ok_of_apply {idxOf : Nat → Option Nat} {pv : List PreviewRow} {st : ApplyState}
    (hnd : (pv.map (fun q => idxOf q.fid)).Nodup) :
    ∀ pr ∈ pv, rowOkP (apply_now idxOf pv st).rows idxOf pr := by
  induction pv generalizing st with
  | nil => intro pr h; exact absurd h (List.not_mem_nil pr)
  | cons p pv ih =>
    intro pr hpr
    have hnd' := List.nodup_cons.mp hnd
    rw [apply_now_cons]
    rcases List.mem_cons.mp hpr with rfl | hmem
    · apply apply_now_preserves_rowOk (applyStep_establishes idxOf st pr)
      intro q hq heq
      apply hnd'.1
      show idxOf pr.fid ∈ pv.map (fun q => idxOf q.fid)
      rw [← heq]
      exact List.mem_map_of_mem _ hq
    · exact ih hnd'.2 pr hmem

theorem apply_now_id_of_ok {idxOf : Nat → Option Nat} {pv : List PreviewRow} {st : ApplyState}
    (h : ∀ pr ∈ pv, rowOkP st.rows idxOf pr) : apply_now idxOf pv st = st := by
  induction pv with
  | nil => rfl
  | cons p pv ih =>
    rw [apply_now_cons, applyStep_id_of_ok (h p (List.mem_cons_self p pv))]
    exact ih (fun pr hpr => h pr (List.mem_cons_of_mem _ hpr))

theorem applyStep_changed (idxOf : Nat → Option Nat) (st : ApplyState) (pr : PreviewRow) :
    (applyStep idxOf st pr).changed
      = st.changed + (if willChange st.rows idxOf pr then 1 else 0) := by
  cases hidx : idxOf pr.fid with
  | none => rw [applyStep_none hidx, willChange_none hidx]; simp
  | some i =>
    rw [applyStep_some hidx, willChange_some hidx]
    cases hrow : st.rows[i]? with
    | none => rw [applyStepAt_oob hrow, willChangeAt_oob hrow]; simp
    | some r =>
      rw [willChangeAt_some hrow]
      by_cases heq : pyUpper r.code = pyUpper pr.tgt
      · rw [applyStepAt_noop hrow heq]; simp [heq]
      · rw [applyStepAt_fire hrow heq]; simp [heq]

theorem willChange_congr {rows rows' : List SRow} {idxOf : Nat → Option Nat} {q : PreviewRow}
    (h : ∀ i, idxOf q.fid = some i → rows'[i]? = rows[i]?) :
    willChange rows' idxOf q = willChange rows idxOf q := by
  cases hidx : idxOf q.fid with
  | none => rw [willChange_none hidx, willChange_none hidx]
  | some i =>
    rw [willChange_some hidx, willChange_some hidx]
    unfold willChangeAt
    rw [h i hidx]

theorem apply_now_changed {idxOf : Nat → Option Nat} {pv : List PreviewRow} (st : ApplyState)
    (hnd : (pv.map (fun q => idxOf q.fid)).Nodup) :
    (apply_now idxOf pv st).changed = st.changed + pv.countP (willChange st.rows idxOf) := by
  induction pv generalizing st with
  | nil => simp [apply_now]
  | cons p pv ih =>
    have hnd' := List.nodup_cons.mp hnd
    rw [apply_now_cons, ih _ hnd'.2, applyStep_changed]
    have hcount : pv.countP (willChange (applyStep idxOf st p).rows idxOf)
        = pv.countP (willChange st.rows idxOf) := by
      apply List.countP_congr
      intro q hq
      have hrw : willChange (applyStep idxOf st p).rows idxOf q
          = willChange st.rows idxOf q := by
        apply willChange_congr
        intro i hi
        apply applyStep_rows_other
        intro i' hi' hii
        exact hnd'.1 (show idxOf p.fid ∈ _ by
          rw [hi', ← hii, ← hi]; exact List.mem_map_of_mem _ hq)
      rw [hrw]
    rw [hcount, List.countP_cons]
    by_cases h : willChange st.rows idxOf p
    · simp only [h, if_pos]
      omega
    · simp only [h, if_neg]
      omega

theorem applyStep_id_of_not_willChange {idxOf : Nat → Option Nat} {st : ApplyState}
    {pr : PreviewRow} (h : willChange st.rows idxOf pr = false) :
    applyStep idxOf st pr = st := by
  cases hidx : idxOf pr.fid with
  | none => exact applyStep_none hidx
  | some i =>
    rw [willChange_some hidx] at h
    rw [applyStep_some hidx]
    cases hrow : st.rows[i]? with
    | none => exact applyStepAt_oob hrow
    | some r =>
      rw [willChangeAt_some hrow] at h
      simp only [Bool.not_eq_false', decide_eq_true_eq] at h
      exact applyStepAt_noop hrow h

theorem apply_now_frame {idxOf : Nat → Option Nat} {pv : List PreviewRow} {st : ApplyState}
    {j : Nat}
    (h : ∀ pr ∈ pv, idxOf pr.fid = some j → willChange st.rows idxOf pr = false) :
    (apply_now idxOf pv st).rows[j]? = st.rows[j]? := by
  induction pv generalizing st with
  | nil => rfl
  | cons p pv ih =>
    rw [apply_now_cons]
    by_cases hpj : idxOf p.fid = some j
    · rw [applyStep_id_of_not_willChange (h p (List.mem_cons_self p pv) hpj)]
      exact ih (fun q hq hqj => h q (List.mem_cons_of_mem _ hq) hqj)
    · have hother : ∀ i, idxOf p.fid = some i → j ≠ i := by
        intro i hi hji
        exact hpj (by rw [hi, hji])
      have hrowsj : (applyStep idxOf st p).rows[j]? = st.rows[j]? :=
        applyStep_rows_other hother
      rw [ih ?_, hrowsj]
      intro q hq hqj
      have hrw : willChange (applyStep idxOf st p).rows idxOf q
          = willChange st.rows idxOf q := by
        apply willChange_congr
        intro i hi
        obtain rfl : i = j := by rw [hi] at hqj; exact Option.some.inj hqj
        exact hrowsj
      rw [hrw]
      exact h q (List.mem_cons_of_mem _ hq) hqj

theorem applyStep_modified_other {idxOf : Nat → Option Nat} {st : ApplyState}
    {pr : PreviewRow} {f : Nat} (h : pr.fid ≠ f) :
    (applyStep idxOf st pr).modified f = st.modified f := by
  cases hidx : idxOf pr.fid with
  | none => rw [applyStep_none hidx]
  | some i =>
    rw [applyStep_some hidx]
    cases hrow : st.rows[i]? with
    | none => rw [applyStepAt_oob hrow]
    | some r =>
      by_cases heq : pyUpper r.code = pyUpper pr.tgt
      · rw [applyStepAt_noop hrow heq]
      · rw [applyStepAt_fire hrow heq]
        show (if f = pr.fid then some pr.tgt else st.modified f) = st.modified f
        rw [if_neg (fun hf => h hf.symm)]

theorem apply_now_modified_other {idxOf : Nat → Option Nat} {pv : List PreviewRow}
    {st : ApplyState} {f : Nat} (h : ∀ q ∈ pv, q.fid ≠ f) :
    (apply_now idxOf pv st).modified f = st.modified f := by
  induction pv generalizing st with
  | nil => rfl
  | cons p pv ih =>
    rw [apply_now_cons, ih (fun q hq => h q (List.mem_cons_of_mem _ hq)),
      applyStep_modified_other (h p (List.mem_cons_self p pv))]

theorem apply_now_rows_untouched {idxOf : Nat → Option Nat} {pv : List PreviewRow}
    {st : ApplyState} {i : Nat} (h : ∀ q ∈ pv, idxOf q.fid ≠ some i) :
    (apply_now idxOf pv st).rows[i]? = st.rows[i]? := by
  induction pv generalizing st with
  | nil => rfl
  | cons p pv ih =>
    rw [apply_now_cons, ih (fun q hq => h q (List.mem_cons_of_mem _ hq))]
    apply applyStep_rows_other
    intro i' hi' hii
    exact h p (List.mem_cons_self p pv) (by rw [hi', ← hii])

theorem apply_now_fires {idxOf : Nat → Option Nat} {pv : List PreviewRow} (st : ApplyState)
    {pr : PreviewRow} {i : Nat} {r : SRow}
    (hnd : (pv.map (fun q => idxOf q.fid)).Nodup) (hpr : pr ∈ pv)
    (hidx : idxOf pr.fid = some i) (hrow : st.rows[i]? = some r)
    (hdiff : ¬ pyUpper r.code = pyUpper pr.tgt) :
    (apply_now idxOf pv st).rows[i]? = some (updRow r pr)
    ∧ (apply_now idxOf pv st).modified pr.fid = some pr.tgt := by
  induction pv generalizing st with
  | nil => exact absurd hpr (List.not_mem_nil pr)
  | cons p pv ih =>
    have hnd' := List.nodup_cons.mp hnd
    rw [apply_now_cons]
    rcases List.mem_cons.mp hpr with rfl | hmem
    · obtain ⟨hi, _⟩ := List.getElem?_eq_some.mp hrow
      have hstep_rows : (applyStep idxOf st pr).rows[i]? = some (updRow r pr) := by
        rw [applyStep_some hidx, applyStepAt_fire hrow hdiff]
        show (st.rows.set i (updRow r pr))[i]? = some (updRow r pr)
        exact List.getElem?_set_self hi
      have hstep_mod : (applyStep idxOf st pr).modified pr.fid = some pr.tgt := by
        rw [applyStep_some hidx, applyStepAt_fire hrow hdiff]
        show (if pr.fid = pr.fid then some pr.tgt else st.modified pr.fid) = some pr.tgt
        rw [if_pos rfl]
      constructor
      · rw [apply_now_rows_untouched ?_]
        · exact hstep_rows
        · intro q hq hqi
          exact hnd'.1 (show idxOf pr.fid ∈ _ by
            rw [hidx, ← hqi]; exact List.mem_map_of_mem _ hq)
      · rw [apply_now_modified_other ?_]
        · exact hstep_mod
        · intro q hq hqf
          exact hnd'.1 (show idxOf pr.fid ∈ _ by
            rw [← hqf]; exact List.mem_map_of_mem _ hq)
    · have hpres : (applyStep idxOf st p).rows[i]? = some r := by
        rw [applyStep_rows_other ?_]
        · exact hrow
        · intro i' hi' hii
          exact hnd'.1 (show idxOf p.fid ∈ _ by
            rw [hi', ← hii, ← hidx]; exact List.mem_map_of_mem _ hmem)
      exact ih _ hnd'.2 hmem hpres

theorem applyCodeStep_some {md : MappingDesc} {ml : MappingLong} {idxOf : Nat → Option Nat}
    {new_code : String} {st : ApplyState} {fid i : Nat} (h : idxOf fid = some i) :
    applyCodeStep md ml idxOf new_code st fid = applyCodeStepAt md ml new_code st fid i := by
  unfold applyCodeStep; rw [h]

theorem applyCodeStepAt_fire {md : MappingDesc} {ml : MappingLong} {new_code : String}
    {st : ApplyState} {fid i : Nat} {r : SRow}
    (h : st.rows[i]? = some r) (hne : ¬ pyUpper r.code = pyUpper new_code) :
    applyCodeStepAt md ml new_code st fid i
      = { rows := st.rows.set i
            { r with long := if r.long ≠ "" then r.long
                             else (resolve_long_and_desc md ml r.fid new_code).1
                     code := new_code
                     desc := if (resolve_long_and_desc md ml r.fid new_code).2 ≠ ""
                             then (resolve_long_and_desc md ml r.fid new_code).2 else r.desc
                     mark := new_code }
          modified := fun k => if k = fid then some new_code else st.modified k
          changed := st.changed + 1 } := by
  unfold applyCodeStepAt
  rw [h]
  show (if pyUpper r.code = pyUpper new_code then _ else _) = _
  rw [if_neg hne]

/-! ### Claim C5 -/

/-- C5: committing a staged preview changes exactly the preview rows whose
before-code differs case-insensitively from the target (`changed` counts
them, and any record index at which every matching preview row would be a
no-op keeps its record), and the commit is idempotent: a second run of
`_apply_now` over the same preview changes zero records and leaves the state
untouched.  The patch's ids are distinct, as Python dict keys are. -/
theorem c5_commit_count_frame_idempotent :
    ∀ (md : MappingDesc) (ml : MappingLong) (rows : List SRow)
      (mapping : List (Nat × String)) (mod0 : Nat → Option String),
      (mapping.map Prod.fst).Nodup →
      ((apply_now (idToIdx rows) (stage md ml rows mapping)
          { rows := rows, modified := mod0, changed := 0 }).changed
        = (stage md ml rows mapping).countP (willChange rows (idToIdx rows)))
      ∧ (∀ j, (∀ pr ∈ stage md ml rows mapping,
            idToIdx rows pr.fid = some j → willChange rows (idToIdx rows) pr = false) →
          (apply_now (idToIdx rows) (stage md ml rows mapping)
              { rows := rows, modified := mod0, changed := 0 }).rows[j]? = rows[j]?)
      ∧ apply_now (idToIdx rows) (stage md ml rows mapping)
            { rows := (apply_now (idToIdx rows) (stage md ml rows mapping)
                { rows := rows, modified := mod0, changed := 0 }).rows
              modified := (apply_now (idToIdx rows) (stage md ml rows mapping)
                { rows := rows, modified := mod0, changed := 0 }).modified
              changed := 0 }
          = { rows := (apply_now (idToIdx rows) (stage md ml rows mapping)
                { rows := rows, modified := mod0, changed := 0 }).rows
              modified := (apply_now (idToIdx rows) (stage md ml rows mapping)
                { rows := rows, modified := mod0, changed := 0 }).modified
              changed := 0 } := by
  intro md ml rows mapping mod0 hnodup
  have hkeys := stage_keys_nodup md ml rows hnodup
  refine ⟨?_, fun j hj => apply_now_frame hj, ?_⟩
  · have h := apply_now_changed { rows := rows, modified := mod0, changed := 0 } hkeys
    simpa using h
  · apply apply_now_id_of_ok
    intro pr hpr
    exact ok_of_apply hkeys pr hpr

/-- Witness for C5: the count conjunct on Scenario 3's data — exactly one
record differs, so exactly one change is counted. -/
theorem c5_commit_count_frame_idempotent_witness :
    (apply_now (idToIdx scenario3Rows) (stage emptyMD emptyML scenario3Rows scenario3Patch)
        { rows := scenario3Rows, modified := noMod, changed := 0 }).changed
      = (stage emptyMD emptyML scenario3Rows scenario3Patch).countP
          (willChange scenario3Rows (idToIdx scenario3Rows)) :=
  (c5_commit_count_frame_idempotent emptyMD emptyML scenario3Rows scenario3Patch noMod
    (by decide)).1

/-! ### Claim C6 -/

/-- C6: staging produces exactly one preview row per patch entry whose id is
present in the snapshot, in patch order, silently dropping absent ids; and in
Scenario 3 the patch `{100: "Z", 200: "Q"}` against a snapshot holding only
id 100 previews exactly one row, whose commit changes one record — or zero
when id 100 already carries code `"Z"`. -/
theorem c6_stage_drops_absent :
    (∀ (md : MappingDesc) (ml : MappingLong) (rows : List SRow)
        (mapping : List (Nat × String)),
      (stage md ml rows mapping).map (fun pr => pr.fid)
        = (mapping.filter (fun e => (idToIdx rows e.1).isSome)).map Prod.fst)
    ∧ (stage emptyMD emptyML scenario3Rows scenario3Patch).length = 1
    ∧ (apply_now (idToIdx scenario3Rows) (stage emptyMD emptyML scenario3Rows scenario3Patch)
        { rows := scenario3Rows, modified := noMod, changed := 0 }).changed = 1
    ∧ (apply_now (idToIdx scenario3RowsZ) (stage emptyMD emptyML scenario3RowsZ scenario3Patch)
        { rows := scenario3RowsZ, modified := noMod, changed := 0 }).changed = 0 := by
  refine ⟨?_, by decide, by decide, by decide⟩
  intro md ml rows mapping
  induction mapping with
  | nil => rfl
  | cons e es ih =>
    show ((List.filterMap _ (e :: es)).map _) = ((e :: es).filter _).map Prod.fst
    rw [List.filterMap_cons, List.filter_cons]
    cases hidx : idToIdx rows e.1 with
    | none =>
      rw [stageRow_none hidx]
      simp only [hidx, Option.isSome_none, Bool.false_eq_true, if_false]
      exact ih
    | some i =>
      obtain ⟨r, hrow, hfid⟩ := idToIdx_getElem? hidx
      rw [stageRow_some hidx, stageRowAt_some hrow]
      simp only [hidx, Option.isSome_some, if_true, List.map_cons]
      rw [hfid]
      exact congrArg (fun l => e.1 :: l) ih

/-! ### Claim C9 -/

/-- C9 counterexample: a committed code change does NOT always store the
meaning recomputed by the resolver.  Against an empty mapping library the
resolver returns the empty meaning for the new code `"Z"`, yet the committed
record keeps its old meaning `"Old"` (the source's `desc_after or desc`
fallback at editor line 865), so the stored meaning differs from the
resolver's result. -/
theorem c9_meaning_counterexample :
    (apply_now (idToIdx unresolvedRows) (stage emptyMD emptyML unresolvedRows retargetPatch)
        { rows := unresolvedRows, modified := noMod, changed := 0 }).rows.map SRow.desc
      = ["Old"]
    ∧ (resolve_long_and_desc emptyMD emptyML 100 "Z").2 = ""
    ∧ ("Old" : String) ≠ "" := by
  refine ⟨by decide, by decide, by decide⟩

/-- C9 (amended): when a bulk commit actually changes a record, the new code
is stored, the record is marked as modified (both the flase-marker and
`modified_codes`), and the stored meaning is the resolver's meaning for the
new code when that is non-empty — otherwise the previous meaning is kept
(`desc_after or desc`); the display name is left as it was.  The single-row
apply path behaves the same, additionally filling an empty display name from
the resolver (`long0 or long_after`). -/
theorem c9_commit_resolves_amended :
    (∀ (md : MappingDesc) (ml : MappingLong) (rows : List SRow)
        (mapping : List (Nat × String)) (mod0 : Nat → Option String)
        (f : Nat) (tgt : String) (i : Nat) (r : SRow),
      (mapping.map Prod.fst).Nodup → (f, tgt) ∈ mapping →
      idToIdx rows f = some i → rows[i]? = some r → ¬ pyUpper r.code = pyUpper tgt →
      (apply_now (idToIdx rows) (stage md ml rows mapping)
          { rows := rows, modified := mod0, changed := 0 }).rows[i]?
        = some { r with code := tgt
                        desc := if (resolve_long_and_desc md ml f tgt).2 ≠ ""
                                then (resolve_long_and_desc md ml f tgt).2 else r.desc
                        mark := tgt }
      ∧ (apply_now (idToIdx rows) (stage md ml rows mapping)
          { rows := rows, modified := mod0, changed := 0 }).modified f = some tgt)
    ∧ (∀ (md : MappingDesc) (ml : MappingLong) (rows : List SRow)
        (mod0 : Nat → Option String) (f : Nat) (new_code : String) (i : Nat) (r : SRow),
      idToIdx rows f = some i → rows[i]? = some r → ¬ pyUpper r.code = pyUpper new_code →
      (on_apply_code_loop md ml rows mod0 [f] new_code).rows[i]?
        = some { r with long := if r.long ≠ "" then r.long
                                else (resolve_long_and_desc md ml r.fid new_code).1
                        code := new_code
                        desc := if (resolve_long_and_desc md ml r.fid new_code).2 ≠ ""
                                then (resolve_long_and_desc md ml r.fid new_code).2 else r.desc
                        mark := new_code }
      ∧ (on_apply_code_loop md ml rows mod0 [f] new_code).modified f = some new_code) := by
  constructor
  · intro md ml rows mapping mod0 f tgt i r hnodup hmem hidx hrow hdiff
    have hkeys := stage_keys_nodup md ml rows hnodup
    have hfid : r.fid = f := idToIdx_fid hidx hrow
    have hpr : stageRow md ml rows (idToIdx rows) (f, tgt)
        = some { fid := r.fid
                 longUsed := if r.long ≠ "" then r.long
                             else (resolve_long_and_desc md ml r.fid tgt).1
                 codeShow := if r.code ≠ tgt then r.code ++ " → " ++ tgt else r.code
                 descShow :=
                   if (resolve_long_and_desc md ml r.fid tgt).2 ≠ ""
                       ∧ (resolve_long_and_desc md ml r.fid tgt).2 ≠ r.desc
                   then r.desc ++ " → " ++ (resolve_long_and_desc md ml r.fid tgt).2
                   else if r.desc ≠ "" then r.desc
                   else (resolve_long_and_desc md ml r.fid tgt).2
                 tgt := tgt
                 descAfter := (resolve_long_and_desc md ml r.fid tgt).2 } := by
      rw [stageRow_some (show idToIdx rows (f, tgt).1 = some i from hidx),
        stageRowAt_some hrow]
    have hmem' : _ ∈ stage md ml rows mapping := List.mem_filterMap.mpr ⟨(f, tgt), hmem, hpr⟩
    have hfires := apply_now_fires { rows := rows, modified := mod0, changed := 0 }
      hkeys hmem' (by show idToIdx rows r.fid = some i; rw [hfid]; exact hidx) hrow hdiff
    rw [hfid] at hfires
    constructor
    · rw [hfires.1]
      rfl
    · rw [hfires.2]
  · intro md ml rows mod0 f new_code i r hidx hrow hdiff
    have hfold : on_apply_code_loop md ml rows mod0 [f] new_code
        = applyCodeStep md ml (idToIdx rows) new_code
            { rows := rows, modified := mod0, changed := 0 } f := rfl
    have hrow' : ({ rows := rows, modified := mod0, changed := 0 } : ApplyState).rows[i]?
        = some r := hrow
    obtain ⟨hi, _⟩ := List.getElem?_eq_some.mp hrow
    rw [hfold, applyCodeStep_some hidx, applyCodeStepAt_fire hrow' hdiff]
    constructor
    · show (rows.set i _)[i]? = _
      rw [List.getElem?_set_self hi]
    · show (if f = f then some new_code else mod0 f) = some new_code
      rw [if_pos rfl]

/-- Witness for C9 (amended): committing Scenario 3's patch stores code `"Z"`
on the id-100 record, keeps the old (empty-resolver) meaning and marks the
record modified. -/
theorem c9_commit_resolves_amended_witness :
    (apply_now (idToIdx scenario3Rows) (stage emptyMD emptyML scenario3Rows scenario3Patch)
        { rows := scenario3Rows, modified := noMod, changed := 0 }).rows[0]?
      = some { fid := 100, long := "", code := "Z"
               desc := if (resolve_long_and_desc emptyMD emptyML 100 "Z").2 ≠ ""
                       then (resolve_long_and_desc emptyMD emptyML 100 "Z").2 else ""
               upd := "", mark := "Z" }
    ∧ (apply_now (idToIdx scenario3Rows) (stage emptyMD emptyML scenario3Rows scenario3Patch)
        { rows := scenario3Rows, modified := noMod, changed := 0 }).modified 100
      = some "Z" :=
  (c9_commit_resolves_amended.1 emptyMD emptyML scenario3Rows scenario3Patch noMod
    100 "Z" 0 { fid := 100, long := "", code := "A", desc := "", upd := "", mark := "" }
    (by decide) (by decide) (by decide) (by decide) (by decide))

/-! ### Claim C3 -/

/-- C3: the delta category is assigned by exactly the source's precedence —
"Only B" iff the id is absent from A and present in B, "Only A" iff absent
from B and present in A, "Both (same)" iff present in both with equal counts,
"Both (increased)" iff present in both with a larger B count, and
"Both (decreased)" otherwise — the five categories are mutually exclusive and
exhaustive for every id that appears at all, and comparing against an empty
cohort yields only the "Only X" categories. -/
theorem c3_category_precedence :
    (∀ cA cB : Nat, 0 < cA + cB →
      ((categorize cA cB = "Only B" ↔ cA = 0 ∧ 0 < cB)
       ∧ (categorize cA cB = "Only A" ↔ cB = 0 ∧ 0 < cA)
       ∧ (categorize cA cB = "Both (same)" ↔ 0 < cA ∧ cA = cB)
       ∧ (categorize cA cB = "Both (increased)" ↔ 0 < cA ∧ cA < cB)
       ∧ (categorize cA cB = "Both (decreased)" ↔ 0 < cB ∧ cB < cA)
       ∧ (categorize cA cB = "Only B" ∨ categorize cA cB = "Only A"
          ∨ categorize cA cB = "Both (same)" ∨ categorize cA cB = "Both (increased)"
          ∨ categorize cA cB = "Both (decreased)")))
    ∧ (∀ (B : List Snapshot) (fid : String), 0 < countIn B fid →
        categorize (countIn [] fid) (countIn B fid) = "Only B")
    ∧ (∀ (A : List Snapshot) (fid : String), 0 < countIn A fid →
        categorize (countIn A fid) (countIn [] fid) = "Only A") := by
  refine ⟨?_, ?_, ?_⟩
  · intro cA cB hsup
    unfold categorize
    split_ifs with h1 h2 h3 h4 <;>
      refine ⟨?_, ?_, ?_, ?_, ?_, ?_⟩ <;> simp_all <;> omega
  · intro B fid h
    show categorize 0 (countIn B fid) = "Only B"
    unfold categorize
    rw [if_pos ⟨rfl, h⟩]
  · intro A fid h
    show categorize (countIn A fid) 0 = "Only A"
    unfold categorize
    rw [if_neg (fun hx => Nat.lt_irrefl 0 hx.2), if_pos ⟨rfl, h⟩]

/-- Witness for C3: counts (2, 3) land in "Both (increased)", and a
one-snapshot cohort B against an empty A gives "Only B". -/
theorem c3_category_precedence_witness :
    categorize 2 3 = "Both (increased)"
    ∧ (0 < (2 : Nat) ∧ (2 : Nat) < 3) := by
  have h := (c3_category_precedence.1 2 3 (by decide)).2.2.2.1
  exact ⟨h.mpr (by decide), by decide⟩

/-! ### Claim C4 -/

/-- C4: the similarity score is `0.6 * countSimilarity + 0.4 * jaccard` with
`countSimilarity = min/max` of the presence counts (0 when the max is 0) and
`jaccard = |∩|/|∪|` of the code sets (0 when the union is empty); the score
always lies in `[0, 1]`, and on Scenario 2 (`countA = 2`, `countB = 1`,
disjoint singleton code sets) it equals `0.3` with `countSimilarity = 1/2`
and `jaccard = 0`.  Python's float arithmetic is modelled exactly over `ℚ`. -/
theorem c4_similarity_score :
    (∀ (cA cB : Nat) (sA sB : Finset String),
      0 ≤ similarity cA cB sA sB ∧ similarity cA cB sA sB ≤ 1)
    ∧ similarity 2 1 {"A"} {"Z"} = 0.3
    ∧ count_sim 2 1 = 1 / 2
    ∧ jaccard {"A"} {"Z"} = 0 := by
  have hcs : ∀ cA cB : Nat, 0 ≤ count_sim cA cB ∧ count_sim cA cB ≤ 1 := by
    intro cA cB
    unfold count_sim
    split_ifs with h
    · constructor
      · apply div_nonneg <;> positivity
      · rw [div_le_one (by exact_mod_cast h)]
        exact_mod_cast min_le_max (a := cA) (b := cB)
    · norm_num
  have hjc : ∀ sA sB : Finset String, 0 ≤ jaccard sA sB ∧ jaccard sA sB ≤ 1 := by
    intro sA sB
    unfold jaccard
    split_ifs with h
    · constructor
      · apply div_nonneg <;> positivity
      · rw [div_le_one (by exact_mod_cast h)]
        exact_mod_cast Finset.card_le_card Finset.inter_subset_union
    · norm_num
  have hj0 : jaccard {"A"} {"Z"} = 0 := by
    have h1 : (({"A"} : Finset String) ∩ {"Z"}).card = 0 := by decide
    have h2 : (({"A"} : Finset String) ∪ {"Z"}).card = 2 := by decide
    rw [jaccard, h1, h2]
    norm_num
  have hc12 : count_sim 2 1 = 1 / 2 := by norm_num [count_sim]
  refine ⟨?_, ?_, hc12, hj0⟩
  · intro cA cB sA sB
    obtain ⟨h1, h2⟩ := hcs cA cB
    obtain ⟨h3, h4⟩ := hjc sA sB
    unfold similarity
    constructor <;> nlinarith [h1, h2, h3, h4]
  · rw [similarity, hc12, hj0]
    norm_num

/-! ### Claim C7 -/

theorem pyStrLeL_total : ∀ as bs : List Char,
    pyStrLeL as bs = true ∨ pyStrLeL bs as = true := by
  intro as
  induction as with
  | nil => intro bs; exact Or.inl rfl
  | cons a as ih =>
    intro bs
    cases bs with
    | nil => exact Or.inr rfl
    | cons b bs =>
      simp only [pyStrLeL, Bool.or_eq_true, Bool.and_eq_true, decide_eq_true_eq]
      rcases Nat.lt_trichotomy a.toNat b.toNat with h | h | h
      · exact Or.inl (Or.inl h)
      · rcases ih bs with h1 | h1
        · exact Or.inl (Or.inr ⟨h, h1⟩)
        · exact Or.inr (Or.inr ⟨h.symm, h1⟩)
      · exact Or.inr (Or.inl h)

theorem pyStrLeL_trans : ∀ as bs cs : List Char,
    pyStrLeL as bs = true → pyStrLeL bs cs = true → pyStrLeL as cs = true := by
  intro as
  induction as with
  | nil => intro bs cs _ _; rfl
  | cons a as ih =>
    intro bs cs h1 h2
    cases bs with
    | nil => simp [pyStrLeL] at h1
    | cons b bs =>
      cases cs with
      | nil => simp [pyStrLeL] at h2
      | cons c cs =>
        simp only [pyStrLeL, Bool.or_eq_true, Bool.and_eq_true, decide_eq_true_eq]
          at h1 h2 ⊢
        rcases h1 with h1 | ⟨h1e, h1r⟩
        · rcases h2 with h2 | ⟨h2e, h2r⟩
          · exact Or.inl (h1.trans h2)
          · exact Or.inl (lt_of_lt_of_eq h1 h2e)
        · rcases h2 with h2 | ⟨h2e, h2r⟩
          · exact Or.inl (lt_of_eq_of_lt h1e h2)
          · exact Or.inr ⟨h1e.trans h2e, ih bs cs h1r h2r⟩

theorem pyStrLe_total (a b : String) : pyStrLe a b = true ∨ pyStrLe b a = true :=
  pyStrLeL_total a.data b.data

theorem pyStrLe_trans {a b c : String} (h1 : pyStrLe a b = true) (h2 : pyStrLe b c = true) :
    pyStrLe a c = true :=
  pyStrLeL_trans a.data b.data c.data h1 h2

theorem simLe_total : ∀ a b : CmpRow, (simLe a b || simLe b a) = true := by
  intro a b
  simp only [simLe, Bool.or_eq_true, Bool.and_eq_true, decide_eq_true_eq]
  rcases lt_trichotomy a.sim b.sim with h | h | h
  · exact Or.inr (Or.inl h)
  · rcases Nat.lt_trichotomy a.support b.support with hs | hs | hs
    · exact Or.inr (Or.inr ⟨h, Or.inl hs⟩)
    · rcases pyStrLe_total a.fpc_id b.fpc_id with hf | hf
      · exact Or.inl (Or.inr ⟨h.symm, Or.inr ⟨hs.symm, hf⟩⟩)
      · exact Or.inr (Or.inr ⟨h, Or.inr ⟨hs, hf⟩⟩)
    · exact Or.inl (Or.inr ⟨h.symm, Or.inl hs⟩)
  · exact Or.inl (Or.inl h)

theorem simLe_trans : ∀ a b c : CmpRow,
    simLe a b = true → simLe b c = true → simLe a c = true := by
  intro a b c h1 h2
  simp only [simLe, Bool.or_eq_true, Bool.and_eq_true, decide_eq_true_eq] at h1 h2 ⊢
  rcases h1 with h1 | ⟨h1e, h1r⟩
  · rcases h2 with h2 | ⟨h2e, h2r⟩
    · exact Or.inl (h2.trans h1)
    · exact Or.inl (lt_of_eq_of_lt h2e h1)
  · rcases h2 with h2 | ⟨h2e, h2r⟩
    · exact Or.inl (lt_of_lt_of_eq h2 h1e)
    · refine Or.inr ⟨h2e.trans h1e, ?_⟩
      rcases h1r with h1r | ⟨h1s, h1f⟩
      · rcases h2r with h2r | ⟨h2s, h2f⟩
        · exact Or.inl (h2r.trans h1r)
        · exact Or.inl (lt_of_eq_of_lt h2s h1r)
      · rcases h2r with h2r | ⟨h2s, h2f⟩
        · exact Or.inl (lt_of_lt_of_eq h2r h1s)
        · exact Or.inr ⟨h2s.trans h1s, pyStrLe_trans h1f h2f⟩

theorem catLe_total : ∀ a b : CmpRow, (catLe a b || catLe b a) = true := by
  intro a b
  simp only [catLe, Bool.or_eq_true, Bool.and_eq_true, decide_eq_true_eq]
  rcases Nat.lt_trichotomy (catRank a.category) (catRank b.category) with h | h | h
  · exact Or.inl (Or.inl h)
  · rcases pyStrLe_total a.fpc_id b.fpc_id with hf | hf
    · exact Or.inl (Or.inr ⟨h, hf⟩)
    · exact Or.inr (Or.inr ⟨h.symm, hf⟩)
  · exact Or.inr (Or.inl h)

theorem catLe_trans : ∀ a b c : CmpRow,
    catLe a b = true → catLe b c = true → catLe a c = true := by
  intro a b c h1 h2
  simp only [catLe, Bool.or_eq_true, Bool.and_eq_true, decide_eq_true_eq] at h1 h2 ⊢
  rcases h1 with h1 | ⟨h1e, h1f⟩
  · rcases h2 with h2 | ⟨h2e, h2f⟩
    · exact Or.inl (h1.trans h2)
    · exact Or.inl (lt_of_lt_of_eq h1 h2e)
  · rcases h2 with h2 | ⟨h2e, h2f⟩
    · exact Or.inl (lt_of_eq_of_lt h1e h2)
    · exact Or.inr ⟨h1e.trans h2e, pyStrLe_trans h1f h2f⟩

instance catClaimOrd.instDecidableRel : DecidableRel catClaimOrd := fun a b => by
  unfold catClaimOrd
  exact inferInstance

section
attribute [local semireducible] List.merge List.mergeSort

/-- C7 counterexample: the claimed tie-break "ascending ParameterId" (a
numeric identifier per the data model) fails on the code: the sort compares
the FPC_ID string, so under the category policy two "Only B" rows with ids 9
and 10 come out as `["10", "9"]` — lexicographically ascending but
numerically descending — violating the claimed pairwise ordering. -/
theorem c7_sort_counterexample :
    ¬ List.Pairwise catClaimOrd
        (sort_rows_in_place "category"
          [{ category := "Only B", sim := 0, support := 0, fpc_id := "9" },
           { category := "Only B", sim := 0, support := 0, fpc_id := "10" }]) := by
  decide

end

/-- C7 (amended): the Delta output obeys the selected sort policy with the
tie-break "ascending ParameterId" read as ascending lexicographic order of
the FPC_ID string (the code compares the string field, so e.g. "10" precedes
"9"): under the similarity policy every pair of output rows is ordered by
descending similarity, ties by descending support, then ascending id string;
under the category policy by the fixed precedence Only B, Only A,
Both (increased), Both (decreased), Both (same), ties by ascending id
string. -/
theorem c7_sort_policies_amended :
    ∀ rows : List CmpRow,
      (sort_rows_in_place "similarity" rows).Pairwise (fun a b => simLe a b = true)
      ∧ (sort_rows_in_place "category" rows).Pairwise (fun a b => catLe a b = true) := by
  intro rows
  constructor
  · show (if ("similarity" : String) = "similarity" then rows.mergeSort simLe
        else rows.mergeSort catLe).Pairwise _
    rw [if_pos rfl]
    exact List.sorted_mergeSort simLe_trans simLe_total rows
  · show (if ("category" : String) = "similarity" then rows.mergeSort simLe
        else rows.mergeSort catLe).Pairwise _
    rw [if_neg (by decide)]
    exact List.sorted_mergeSort catLe_trans catLe_total rows

/-! ### Claim C10 -/

theorem lookupA_ne_nil {l : List (String × PMap)} {k : String} {m : PMap}
    (h : lookupA l k = some m) : l ≠ [] := by
  intro hnil
  subst hnil
  simp [lookupA] at h

theorem pmLookup_map_set_self : ∀ (m : PMap) (k : Nat) (v : String),
    pmLookup (m.map (fun e => if e.1 == k then (k, v) else e)) k
      = if m.any (fun e => e.1 == k) then some v else none := by
  intro m k v
  induction m with
  | nil => rfl
  | cons e es ih =>
    rw [List.map_cons, List.any_cons]
    by_cases he : e.1 == k
    · rw [if_pos he]
      simp [pmLookup, List.find?_cons, he]
    · rw [if_neg he]
      simp only [pmLookup, List.find?_cons, he, Bool.false_or]
      exact ih

theorem pmLookup_map_set_other {k' k : Nat} (h : ¬ k' = k) : ∀ (m : PMap) (v : String),
    pmLookup (m.map (fun e => if e.1 == k then (k, v) else e)) k' = pmLookup m k' := by
  intro m v
  induction m with
  | nil => rfl
  | cons e es ih =>
    rw [List.map_cons]
    by_cases he : e.1 == k
    · rw [if_pos he]
      have hne : k ≠ k' := fun hx => h hx.symm
      have hek : e.1 = k := by simpa using he
      have h1 : ((k, v).1 == k') = false := by simpa using hne
      have h2 : (e.1 == k') = false := by rw [hek]; simpa using hne
      simp only [pmLookup, List.find?_cons, h1, h2]
      exact ih
    · rw [if_neg he]
      by_cases he' : e.1 == k'
      · simp [pmLookup, List.find?_cons, he']
      · simp only [pmLookup, List.find?_cons, he']
        exact ih

theorem pmLookup_dictInsert_self (m : PMap) (k : Nat) (v : String) :
    pmLookup (dictInsert m k v) k = some v := by
  unfold dictInsert
  by_cases hany : m.any (fun e => e.1 == k)
  · rw [if_pos hany, pmLookup_map_set_self, if_pos hany]
  · rw [if_neg hany]
    unfold pmLookup
    rw [List.find?_append]
    have h1 : m.find? (fun e => e.1 == k) = none := by
      rw [List.find?_eq_none]
      intro x hx hpx
      exact hany (List.any_eq_true.mpr ⟨x, hx, hpx⟩)
    rw [h1]
    simp [List.find?_cons]

theorem pmLookup_dictInsert_other {k' k : Nat} (h : ¬ k' = k) (m : PMap) (v : String) :
    pmLookup (dictInsert m k v) k' = pmLookup m k' := by
  unfold dictInsert
  by_cases hany : m.any (fun e => e.1 == k)
  · rw [if_pos hany, pmLookup_map_set_other h]
  · rw [if_neg hany]
    unfold pmLookup
    rw [List.find?_append]
    have hne : k ≠ k' := fun hx => h hx.symm
    have h1 : List.find? (fun e => e.1 == k') [(k, v)] = none := by
      simp [List.find?_cons, hne]
    rw [h1]
    cases m.find? (fun e => e.1 == k') <;> rfl

theorem pmLookup_dictUpdate_not_mem : ∀ (ovr : PMap) (m : PMap) (fid : Nat),
    fid ∉ ovr.map Prod.fst → pmLookup (dictUpdate m ovr) fid = pmLookup m fid := by
  intro ovr
  induction ovr with
  | nil => intro m fid _; rfl
  | cons e es ih =>
    intro m fid h
    rw [List.map_cons] at h
    show pmLookup (dictUpdate (dictInsert m e.1 e.2) es) fid = _
    rw [ih _ _ (fun hmem => h (List.mem_cons_of_mem _ hmem)),
      pmLookup_dictInsert_other (fun hfe => h (by rw [hfe]; exact List.mem_cons_self _ _))]

theorem pmLookup_dictUpdate_mem : ∀ (ovr : PMap) (m : PMap) (fid : Nat) (v : String),
    (ovr.map Prod.fst).Nodup → (fid, v) ∈ ovr →
    pmLookup (dictUpdate m ovr) fid = some v := by
  intro ovr
  induction ovr with
  | nil => intro m fid v _ h; exact absurd h (List.not_mem_nil _)
  | cons e es ih =>
    intro m fid v hnd hmem
    have hnd' := List.nodup_cons.mp hnd
    show pmLookup (dictUpdate (dictInsert m e.1 e.2) es) fid = some v
    rcases List.mem_cons.mp hmem with rfl | hmem'
    · rw [pmLookup_dictUpdate_not_mem es _ (fid, v).1 hnd'.1]
      exact pmLookup_dictInsert_self m fid v
    · exact ih _ _ _ hnd'.2 hmem'

theorem dictInsert_ne_nil (m : PMap) (k : Nat) (v : String) : dictInsert m k v ≠ [] := by
  unfold dictInsert
  split_ifs with h
  · cases m with
    | nil => simp at h
    | cons e es => simp
  · simp

theorem dictUpdate_ne_nil : ∀ (ovr m : PMap), m ≠ [] → dictUpdate m ovr ≠ [] := by
  intro ovr
  induction ovr with
  | nil => intro m h; exact h
  | cons e es ih =>
    intro m _
    exact ih _ (dictInsert_ne_nil m e.1 e.2)

theorem lookupA_assocSet_self : ∀ (l : List (String × PMap)) (k : String) (m v : PMap),
    lookupA l k = some m → lookupA (assocSet l k v) k = some v := by
  intro l k m v h
  induction l with
  | nil => simp [lookupA] at h
  | cons e es ih =>
    unfold assocSet
    rw [List.map_cons]
    by_cases he : e.1 == k
    · rw [if_pos he]
      simp [lookupA, List.find?_cons]
    · rw [if_neg he]
      unfold lookupA at h ⊢
      rw [List.find?_cons] at h ⊢
      simp only [he] at h ⊢
      exact ih h

theorem layer_overrides_nil (m : PMap) (title : String) :
    layer_overrides [] m title = m := rfl

theorem layer_overrides_hit {csv : List (String × PMap)} {title : String} {ovr : PMap}
    (hk : pyLower (pyStrip title) = title) (h : lookupA csv title = some ovr)
    (m : PMap) : layer_overrides csv m title = dictUpdate m ovr := by
  unfold layer_overrides
  rw [hk, h, if_neg (by simp [List.isEmpty_iff]; exact lookupA_ne_nil h)]

theorem layer_overrides_wildcard {csv : List (String × PMap)} {title : String} {ovr : PMap}
    (hk : pyLower (pyStrip title) = title) (h1 : lookupA csv title = none)
    (h2 : lookupA csv "*" = some ovr) (m : PMap) :
    layer_overrides csv m title = dictUpdate m ovr := by
  unfold layer_overrides
  rw [hk, h1, h2, if_neg (by simp [List.isEmpty_iff]; exact lookupA_ne_nil h2)]

theorem run_mapped_action_some {stored : List (String × PMap)} (csv : List (String × PMap))
    {rows : List SRow} {name : String} {m : PMap} (h : lookupA stored name = some m)
    (hm : ¬ m.isEmpty = true) (hr : ¬ rows.isEmpty = true) :
    run_mapped_action stored csv rows name
      = (assocSet stored name (layer_overrides csv m name),
         some (layer_overrides csv m name)) := by
  have h0 : run_mapped_action stored csv rows name
      = run_mapped_action_go csv rows name m stored := by
    unfold run_mapped_action
    rw [h]
  rw [h0]
  unfold run_mapped_action_go
  rw [if_neg hm, if_neg hr]

/-- C10: building a bulk preview mutates the stored action mapping.  When an
operator override exists for the action (keyed by the action name, or the
wildcard `"*"`), `_bulk_preview_and_apply` layers it into the mapping dict
with an in-place `update`; since the handlers pass the very dict stored in
`_default_params` / `CUSTOM_PACKS`, the overridden target codes persist in
the stored mapping, and a later invocation of the same action still uses them
even after the override source is gone. -/
theorem c10_override_mutates_stored_mapping :
    (∀ (stored csv : List (String × PMap)) (rows : List SRow) (name : String)
        (m ovr : PMap) (fid : Nat) (v : String),
      rows ≠ [] → pyLower (pyStrip name) = name →
      lookupA stored name = some m → m ≠ [] →
      lookupA csv name = some ovr → (ovr.map Prod.fst).Nodup → (fid, v) ∈ ovr →
      (run_mapped_action stored csv rows name).2 = some (dictUpdate m ovr)
      ∧ pmLookup (dictUpdate m ovr) fid = some v
      ∧ lookupA (run_mapped_action stored csv rows name).1 name = some (dictUpdate m ovr)
      ∧ (run_mapped_action (run_mapped_action stored csv rows name).1 [] rows name).2
          = some (dictUpdate m ovr))
    ∧ (∀ (stored csv : List (String × PMap)) (rows : List SRow) (name : String)
        (m ovr : PMap),
      rows ≠ [] → pyLower (pyStrip name) = name →
      lookupA stored name = some m → m ≠ [] →
      lookupA csv name = none → lookupA csv "*" = some ovr →
      (run_mapped_action stored csv rows name).2 = some (dictUpdate m ovr)) := by
  constructor
  · intro stored csv rows name m ovr fid v hrows hk hst hm hovr hnd hmem
    have hm' : ¬ m.isEmpty = true := by simpa [List.isEmpty_iff] using hm
    have hr' : ¬ rows.isEmpty = true := by simpa [List.isEmpty_iff] using hrows
    have hlay : layer_overrides csv m name = dictUpdate m ovr :=
      layer_overrides_hit hk hovr m
    have hrun := run_mapped_action_some csv hst hm' hr'
    have hstored1 : lookupA (run_mapped_action stored csv rows name).1 name
        = some (dictUpdate m ovr) := by
      rw [hrun]
      show lookupA (assocSet stored name (layer_overrides csv m name)) name = _
      rw [hlay]
      exact lookupA_assocSet_self stored name m _ hst
    refine ⟨by rw [hrun]; show some _ = some _; rw [hlay],
      pmLookup_dictUpdate_mem ovr m fid v hnd hmem, hstored1, ?_⟩
    have hm1 : ¬ (dictUpdate m ovr).isEmpty = true := by
      simpa [List.isEmpty_iff] using dictUpdate_ne_nil ovr m hm
    rw [run_mapped_action_some [] hstored1 hm1 hr']
    show some (layer_overrides [] (dictUpdate m ovr) name) = _
    rw [layer_overrides_nil]
  · intro stored csv rows name m ovr hrows hk hst hm h1 h2
    have hm' : ¬ m.isEmpty = true := by simpa [List.isEmpty_iff] using hm
    have hr' : ¬ rows.isEmpty = true := by simpa [List.isEmpty_iff] using hrows
    rw [run_mapped_action_some csv hst hm' hr']
    show some (layer_overrides csv m name) = _
    rw [layer_overrides_wildcard hk h1 h2]

/-- Witness for C10: the `"immo fix"` mapping `{2250 ↦ "Z"}` with a CSV
override `{2250 ↦ "X"}` ends up storing `"X"`, and a second run without
overrides still targets `"X"`. -/
theorem c10_override_mutates_stored_mapping_witness :
    (run_mapped_action [("immo fix", [(2250, "Z")])] [("immo fix", [(2250, "X")])]
        scenario3Rows "immo fix").2 = some (dictUpdate [(2250, "Z")] [(2250, "X")])
    ∧ pmLookup (dictUpdate [(2250, "Z")] [(2250, "X")]) 2250 = some "X"
    ∧ lookupA (run_mapped_action [("immo fix", [(2250, "Z")])] [("immo fix", [(2250, "X")])]
        scenario3Rows "immo fix").1 "immo fix" = some (dictUpdate [(2250, "Z")] [(2250, "X")])
    ∧ (run_mapped_action (run_mapped_action [("immo fix", [(2250, "Z")])]
        [("immo fix", [(2250, "X")])] scenario3Rows "immo fix").1 [] scenario3Rows
        "immo fix").2 = some (dictUpdate [(2250, "Z")] [(2250, "X")]) :=
  c10_override_mutates_stored_mapping.1 [("immo fix", [(2250, "Z")])]
    [("immo fix", [(2250, "X")])] scenario3Rows "immo fix" [(2250, "Z")] [(2250, "X")]
    2250 "X" (by decide) (by decide) (by decide) (by decide) (by decide) (by decide)
    (by decide)

end SOPS
